import Mathlib

/-!
Verification of `update_db_generator.py` (mister_cloud_saves update-db generator).

The Python source is shallowly embedded below:

* `compute_file_hash`, `get_file_hash_and_size` — the MD5 content-fetch
  pipeline (streaming in 8192-byte chunks), with MD5 modelled bit-for-bit
  over `Nat` byte lists (`md5Update` / `md5Finalize` model `hashlib`'s
  incremental interface: an internal 4-word state plus an under-64-byte
  buffer).
* `get_tag_and_latest_release_url` — the GitHub release locator, over a
  model of the metadata response.
* `get_update_db_schema`, `generate_update_db` — the manifest template and
  its population, over a `Json` value type (mutual inductive, assoc-list
  objects preserving insertion order, as Python dicts do).
* `json_dump` / `json_load` — Python's `json.dump(..., indent=4)` and
  `json.load`, including string escaping (`ensure_ascii`) and surrogate
  pairs; floats do not occur in this program and number tokens with a
  fractional/exponent part are treated as unparseable.
* `save_update_db_to_file_if_changed` — the persistence gate, over the file
  content as an `Option (List Char)`; Python dict equality (order-blind,
  with `True == 1`) is modelled by `pyEqV`.

All recursion is structural (fuel where needed) so each definition
evaluates inside the kernel on concrete inputs.
-/

/-! ## MD5 (hashlib model) -/

/-- Truncation to a 32-bit word. -/
def w32 (n : Nat) : Nat := n % 4294967296

/-- 32-bit left rotation (input assumed < 2^32). -/
def rotl32 (x s : Nat) : Nat := ((x <<< s) ||| (x >>> (32 - s))) % 4294967296

/-- The 64 MD5 sine-table constants. -/
def md5K : List Nat :=
  [0xd76aa478, 0xe8c7b756, 0x242070db, 0xc1bdceee,
   0xf57c0faf, 0x4787c62a, 0xa8304613, 0xfd469501,
   0x698098d8, 0x8b44f7af, 0xffff5bb1, 0x895cd7be,
   0x6b901122, 0xfd987193, 0xa679438e, 0x49b40821,
   0xf61e2562, 0xc040b340, 0x265e5a51, 0xe9b6c7aa,
   0xd62f105d, 0x02441453, 0xd8a1e681, 0xe7d3fbc8,
   0x21e1cde6, 0xc33707d6, 0xf4d50d87, 0x455a14ed,
   0xa9e3e905, 0xfcefa3f8, 0x676f02d9, 0x8d2a4c8a,
   0xfffa3942, 0x8771f681, 0x6d9d6122, 0xfde5380c,
   0xa4beea44, 0x4bdecfa9, 0xf6bb4b60, 0xbebfbc70,
   0x289b7ec6, 0xeaa127fa, 0xd4ef3085, 0x04881d05,
   0xd9d4d039, 0xe6db99e5, 0x1fa27cf8, 0xc4ac5665,
   0xf4292244, 0x432aff97, 0xab9423a7, 0xfc93a039,
   0x655b59c3, 0x8f0ccc92, 0xffeff47d, 0x85845dd1,
   0x6fa87e4f, 0xfe2ce6e0, 0xa3014314, 0x4e0811a1,
   0xf7537e82, 0xbd3af235, 0x2ad7d2bb, 0xeb86d391]

/-- The 64 MD5 per-round rotation amounts. -/
def md5S : List Nat :=
  [7, 12, 17, 22, 7, 12, 17, 22, 7, 12, 17, 22, 7, 12, 17, 22,
   5, 9, 14, 20, 5, 9, 14, 20, 5, 9, 14, 20, 5, 9, 14, 20,
   4, 11, 16, 23, 4, 11, 16, 23, 4, 11, 16, 23, 4, 11, 16, 23,
   6, 10, 15, 21, 6, 10, 15, 21, 6, 10, 15, 21, 6, 10, 15, 21]

/-- The four 32-bit words of the MD5 internal state. -/
structure MD5Words where
  a : Nat
  b : Nat
  c : Nat
  d : Nat
deriving DecidableEq

/-- Little-endian 32-bit word `j` of a 64-byte block. -/
def leWord (bs : List Nat) (j : Nat) : Nat :=
  bs.getD (4*j) 0 + 256 * bs.getD (4*j+1) 0 + 65536 * bs.getD (4*j+2) 0 +
    16777216 * bs.getD (4*j+3) 0

/-- One of the 64 MD5 operations. -/
def md5Step (block : List Nat) (st : MD5Words) (i : Nat) : MD5Words :=
  let f :=
    if i < 16 then (st.b &&& st.c) ||| ((st.b ^^^ 4294967295) &&& st.d)
    else if i < 32 then (st.d &&& st.b) ||| ((st.d ^^^ 4294967295) &&& st.c)
    else if i < 48 then st.b ^^^ st.c ^^^ st.d
    else st.c ^^^ (st.b ||| (st.d ^^^ 4294967295))
  let g :=
    if i < 16 then i
    else if i < 32 then (5*i + 1) % 16
    else if i < 48 then (3*i + 5) % 16
    else (7*i) % 16
  let tmp := w32 (st.a + f + md5K.getD i 0 + leWord block g)
  ⟨st.d, w32 (st.b + rotl32 tmp (md5S.getD i 0)), st.b, st.c⟩

/-- The MD5 compression function on one 64-byte block. -/
def md5Compress (h : MD5Words) (block : List Nat) : MD5Words :=
  let r := (List.range 64).foldl (md5Step block) h
  ⟨w32 (h.a + r.a), w32 (h.b + r.b), w32 (h.c + r.c), w32 (h.d + r.d)⟩

/-- `hashlib.md5` running state: compressed words, an under-one-block byte
buffer, and the total byte count absorbed so far. -/
structure MD5State where
  h : MD5Words
  buf : List Nat
  len : Nat
deriving DecidableEq

/-- Compress every complete 64-byte block at the front of `bs` (fuelled;
`fuel` bounds the number of iterations, one block or fewer per unit). -/
def md5ProcessAux : Nat → MD5Words → List Nat → MD5Words × List Nat
  | 0, h, bs => (h, bs)
  | fuel+1, h, bs =>
    if 64 ≤ bs.length then md5ProcessAux fuel (md5Compress h (bs.take 64)) (bs.drop 64)
    else (h, bs)

/-- Compress every complete 64-byte block at the front of `bs`, returning
the new words and the leftover (< 64 bytes). -/
def md5ProcessAll (h : MD5Words) (bs : List Nat) : MD5Words × List Nat :=
  md5ProcessAux bs.length h bs

/-- The fixed MD5 initial words. -/
def md5InitWords : MD5Words := ⟨0x67452301, 0xefcdab89, 0x98badcfe, 0x10325476⟩

/-- A fresh `hashlib.md5()` object. -/
def md5Init : MD5State := ⟨md5InitWords, [], 0⟩

/-- `hashObject.update(chunk)`: absorb bytes, compressing full blocks. -/
def md5Update (s : MD5State) (chunk : List Nat) : MD5State :=
  let p := md5ProcessAll s.h (s.buf ++ chunk)
  ⟨p.1, p.2, s.len + chunk.length⟩

/-- MD5 padding for a message of `len` bytes: `0x80`, zeros to 56 mod 64,
then the bit length as 8 little-endian bytes. -/
def md5Pad (len : Nat) : List Nat :=
  let zeros := (119 - len % 64) % 64
  let bitLen := (len * 8) % 18446744073709551616
  128 :: (List.replicate zeros 0 ++
    [bitLen % 256, bitLen / 256 % 256, bitLen / 65536 % 256, bitLen / 16777216 % 256,
     bitLen / 4294967296 % 256, bitLen / 1099511627776 % 256,
     bitLen / 281474976710656 % 256, bitLen / 72057594037927936 % 256])

/-- Lowercase hexadecimal digit. -/
def hexChar (n : Nat) : Char := if n < 10 then Char.ofNat (48 + n) else Char.ofNat (87 + n)

/-- Two lowercase hex digits of a byte. -/
def byteHex (b : Nat) : List Char := [hexChar (b / 16), hexChar (b % 16)]

/-- The four little-endian bytes of a 32-bit word. -/
def wordLEBytes (w : Nat) : List Nat :=
  [w % 256, w / 256 % 256, w / 65536 % 256, w / 16777216 % 256]

/-- `hashObject.hexdigest()`: pad, compress, and print the 16 digest bytes
in lowercase hex. -/
def md5Finalize (s : MD5State) : List Char :=
  let p := md5ProcessAll s.h (s.buf ++ md5Pad s.len)
  let digestBytes :=
    wordLEBytes p.1.a ++ wordLEBytes p.1.b ++ wordLEBytes p.1.c ++ wordLEBytes p.1.d
  (digestBytes.map byteHex).flatten

/-- `hashlib.md5(bs).hexdigest()`: the whole input absorbed at once. -/
def md5Hex (bs : List Nat) : List Char := md5Finalize (md5Update md5Init bs)

/-! ## ContentFetcher: `compute_file_hash` and `get_file_hash_and_size` -/

/-- The `while chunk := f.read(8192)` loop: split the file content into
successive chunks of at most 8192 bytes (fuelled, structural). -/
def readChunksAux : Nat → List Nat → List (List Nat)
  | 0, _ => []
  | fuel+1, bs => if bs.isEmpty then [] else bs.take 8192 :: readChunksAux fuel (bs.drop 8192)

/-- The chunks `f.read(8192)` yields for a file holding `bs`. -/
def readChunks (bs : List Nat) : List (List Nat) := readChunksAux bs.length bs

/-- `compute_file_hash(path, "md5")`: fold the 8192-byte read chunks of the
file content through the incremental hash and take the hex digest. -/
def compute_file_hash (content : List Nat) : List Char :=
  md5Finalize (List.foldl md5Update md5Init (readChunks content))

/-- `get_file_hash_and_size(url)`: on HTTP 200 the streamed chunks are
written to the temp file (so its content is their concatenation), then the
size and the chunked MD5 are taken; any other status prints an error and
exits, modelled as `none`. -/
def get_file_hash_and_size (status : Nat) (chunks : List (List Nat)) :
    Option (Nat × List Char) :=
  if status = 200 then
    let content := chunks.flatten
    some (content.length, compute_file_hash content)
  else none

/-! ## JSON values (the shape `json.load` / dict literals produce) -/

mutual
inductive Json where
  | null : Json
  | bool : Bool → Json
  | int : Int → Json
  | str : List Char → Json
  | arr : JArr → Json
  | obj : JObj → Json
deriving DecidableEq

inductive JArr where
  | nil : JArr
  | cons : Json → JArr → JArr
deriving DecidableEq

inductive JObj where
  | nil : JObj
  | cons : List Char → Json → JObj → JObj
deriving DecidableEq
end

/-- Whether the association list has an entry for `key`. -/
def JObj.containsKey : JObj → List Char → Bool
  | .nil, _ => false
  | .cons k _ t, key => k = key || t.containsKey key

/-- Python `d[key] = v`: replace in place if present, else append at the end. -/
def JObj.set : JObj → List Char → Json → JObj
  | .nil, key, v => .cons key v .nil
  | .cons k w t, key, v => if k = key then .cons k v t else .cons k w (t.set key v)

/-- Remove and return the first binding of `key`, if any. -/
def JObj.extract : JObj → List Char → Option (Json × JObj)
  | .nil, _ => none
  | .cons k v t, key =>
    if k = key then some (v, t)
    else
      match t.extract key with
      | some (w, t') => some (w, .cons k v t')
      | none => none

/-- Whether the object is empty. -/
def JObj.isNil : JObj → Bool
  | .nil => true
  | .cons _ _ _ => false

/-- Lookup of `key` (first binding). -/
def JObj.get : JObj → List Char → Option Json
  | .nil, _ => none
  | .cons k v t, key => if k = key then some v else t.get key

/-- The keys, in insertion order. -/
def JObj.keys : JObj → List (List Char)
  | .nil => []
  | .cons k _ t => k :: t.keys

/-! Python `==` on parsed JSON data: dicts compare order-insensitively,
`True == 1` and `False == 0`, everything else structurally. -/

/-- Numeric value of a Python bool. -/
def boolInt (b : Bool) : Int := if b then 1 else 0

mutual
def pyEqV : Json → Json → Bool
  | .null, .null => true
  | .bool b₁, .bool b₂ => b₁ == b₂
  | .bool b₁, .int n₂ => boolInt b₁ == n₂
  | .int n₁, .bool b₂ => n₁ == boolInt b₂
  | .int n₁, .int n₂ => n₁ == n₂
  | .str s₁, .str s₂ => s₁ == s₂
  | .arr a₁, .arr a₂ => pyEqA a₁ a₂
  | .obj o₁, .obj o₂ => pyEqO o₁ o₂
  | _, _ => false

def pyEqA : JArr → JArr → Bool
  | .nil, .nil => true
  | .cons h₁ t₁, .cons h₂ t₂ => pyEqV h₁ h₂ && pyEqA t₁ t₂
  | _, _ => false

def pyEqO : JObj → JObj → Bool
  | .nil, o => o.isNil
  | .cons k v t, o =>
    match o.extract k with
    | some (w, o') => pyEqV v w && pyEqO t o'
    | none => false
end

/-! ## Serialization: `json.dump(update_db, f, indent=4)` -/

/-- The newline-plus-indentation emitted before an item at depth `d`. -/
def nlIndent (d : Nat) : List Char := '\n' :: List.replicate (4*d) ' '

/-- A `\uXXXX` escape (lowercase hex), for `n < 65536`. -/
def uEscape (n : Nat) : List Char :=
  ['\\', 'u', hexChar (n / 4096 % 16), hexChar (n / 256 % 16),
   hexChar (n / 16 % 16), hexChar (n % 16)]

/-- Python `ensure_ascii` escaping of one character: the two-character
shortcuts, `\uXXXX` for other control or non-ASCII characters, and
surrogate pairs beyond the BMP. -/
def escapeChar (c : Char) : List Char :=
  if c = '"' then ['\\', '"']
  else if c = '\\' then ['\\', '\\']
  else if c = Char.ofNat 10 then ['\\', 'n']
  else if c = Char.ofNat 13 then ['\\', 'r']
  else if c = Char.ofNat 9 then ['\\', 't']
  else if c = Char.ofNat 8 then ['\\', 'b']
  else if c = Char.ofNat 12 then ['\\', 'f']
  else if c.toNat < 32 ∨ 126 < c.toNat then
    if c.toNat < 65536 then uEscape c.toNat
    else uEscape (55296 + (c.toNat - 65536) / 1024) ++ uEscape (56320 + (c.toNat - 65536) % 1024)
  else [c]

/-- Escape a whole string body. -/
def escapeList (s : List Char) : List Char := (s.map escapeChar).flatten

/-- A JSON string literal: quotes around the escaped body. -/
def quoteStr (s : List Char) : List Char := '"' :: (escapeList s ++ ['"'])

/-- Decimal digit character. -/
def digitChar (n : Nat) : Char := Char.ofNat (48 + n)

/-- Decimal digits of `n`, most significant first (fuelled). -/
def natCharsAux : Nat → Nat → List Char
  | 0, _ => []
  | fuel+1, n => if n < 10 then [digitChar n] else natCharsAux fuel (n / 10) ++ [digitChar (n % 10)]

/-- Decimal digits of a natural number. -/
def natChars (n : Nat) : List Char := natCharsAux (n+1) n

/-- Python `str` of an integer. -/
def intChars (n : Int) : List Char :=
  if n < 0 then '-' :: natChars n.natAbs else natChars n.toNat

mutual
def jdumpVal : Json → Nat → List Char
  | .null, _ => ['n', 'u', 'l', 'l']
  | .bool true, _ => ['t', 'r', 'u', 'e']
  | .bool false, _ => ['f', 'a', 'l', 's', 'e']
  | .int n, _ => intChars n
  | .str s, _ => quoteStr s
  | .arr .nil, _ => ['[', ']']
  | .arr (.cons h t), d =>
    '[' :: (nlIndent (d+1) ++ jdumpArrItems (.cons h t) (d+1) ++ nlIndent d ++ [']'])
  | .obj .nil, _ => ['{', '}']
  | .obj (.cons k v t), d =>
    '{' :: (nlIndent (d+1) ++ jdumpObjItems (.cons k v t) (d+1) ++ nlIndent d ++ ['}'])

def jdumpArrItems : JArr → Nat → List Char
  | .nil, _ => []
  | .cons h .nil, d => jdumpVal h d
  | .cons h (.cons h₂ t), d =>
    jdumpVal h d ++ ',' :: (nlIndent d ++ jdumpArrItems (.cons h₂ t) d)

def jdumpObjItems : JObj → Nat → List Char
  | .nil, _ => []
  | .cons k v .nil, d => quoteStr k ++ ':' :: ' ' :: jdumpVal v d
  | .cons k v (.cons k₂ v₂ t), d =>
    quoteStr k ++ ':' :: ' ' :: jdumpVal v d ++ ',' :: (nlIndent d ++ jdumpObjItems (.cons k₂ v₂ t) d)
end

/-- `json.dump(v, f, indent=4)`: the exact text written to the file. -/
def json_dump (v : Json) : List Char := jdumpVal v 0

/-! ## Parsing: `json.load` -/

/-- JSON whitespace (space, tab, newline, carriage return). -/
def isWsC (c : Char) : Bool :=
  c = ' ' || c = Char.ofNat 10 || c = Char.ofNat 9 || c = Char.ofNat 13

/-- Skip leading whitespace. -/
def skipWs : List Char → List Char
  | [] => []
  | c :: cs => if isWsC c then skipWs cs else c :: cs

/-- Consume one expected character. -/
def expectChar (c : Char) : List Char → Option (List Char)
  | [] => none
  | x :: xs => if x = c then some xs else none

/-- Value of a hexadecimal digit character. -/
def hexVal (c : Char) : Option Nat :=
  if 48 ≤ c.toNat ∧ c.toNat ≤ 57 then some (c.toNat - 48)
  else if 97 ≤ c.toNat ∧ c.toNat ≤ 102 then some (c.toNat - 87)
  else if 65 ≤ c.toNat ∧ c.toNat ≤ 70 then some (c.toNat - 55)
  else none

/-- A character from a scalar value, when valid. -/
def mkChar (n : Nat) : Option Char :=
  if n.isValidChar then some (Char.ofNat n) else none

/-- Decimal digit test. -/
def isDigitC (c : Char) : Bool := 48 ≤ c.toNat && c.toNat ≤ 57

/-- Prepend a decoded character to a string-parse result. -/
def consStr (c : Char) (r : Option (List Char × List Char)) :
    Option (List Char × List Char) :=
  r.map (fun p => (c :: p.1, p.2))

/-- Value of four hexadecimal digit characters. -/
def hexVal4 (x1 x2 x3 x4 : Char) : Option Nat :=
  match hexVal x1, hexVal x2, hexVal x3, hexVal x4 with
  | some a, some b, some c, some d => some (4096*a + 256*b + 16*c + d)
  | _, _, _, _ => none

/-- Decode one `\\uXXXX` escape (the `\\u` already consumed), joining a
high surrogate with a following `\\uXXXX` low surrogate as Python's
scanner does; a lone surrogate is not representable in `Char` and yields
`none`. Returns the decoded character and the remaining input. -/
def decodeU (cs : List Char) : Option (Char × List Char) :=
  match cs with
  | x1 :: x2 :: x3 :: x4 :: cs₂ =>
    match hexVal4 x1 x2 x3 x4 with
    | none => none
    | some n =>
      if 55296 ≤ n ∧ n ≤ 56319 then
        match cs₂ with
        | y1 :: y2 :: cs' =>
          if y1 = '\\' ∧ y2 = 'u' then
            match cs' with
            | y3 :: y4 :: y5 :: y6 :: cs₃ =>
              match hexVal4 y3 y4 y5 y6 with
              | none => none
              | some m =>
                if 56320 ≤ m ∧ m ≤ 57343 then
                  (mkChar (65536 + 1024 * (n - 55296) + (m - 56320))).map
                    (fun ch => (ch, cs₃))
                else none
            | _ => none
          else none
        | _ => none
      else if 56320 ≤ n ∧ n ≤ 57343 then none
      else (mkChar n).map (fun ch => (ch, cs₂))
  | _ => none

/-! Body of a JSON string literal after the opening quote, up to and
including the closing quote, decoding escapes and surrogate pairs as
Python's scanner does. A raw control character is rejected
(`strict=True`). The recursion is fuelled (one unit per step; four units
per input character always suffice, see `parseStr`). -/

mutual
def parseStrBody : Nat → List Char → Option (List Char × List Char)
  | 0, _ => none
  | fuel+1, cs =>
    match cs with
    | [] => none
    | c :: cs' =>
      if c = '"' then some ([], cs')
      else if c = '\\' then parseEscSeq fuel cs'
      else if c.toNat < 32 then none
      else consStr c (parseStrBody fuel cs')

def parseEscSeq : Nat → List Char → Option (List Char × List Char)
  | 0, _ => none
  | fuel+1, cs =>
    match cs with
    | [] => none
    | e :: cs₁ =>
      if e = '"' then consStr '"' (parseStrBody fuel cs₁)
      else if e = '\\' then consStr '\\' (parseStrBody fuel cs₁)
      else if e = '/' then consStr '/' (parseStrBody fuel cs₁)
      else if e = 'n' then consStr (Char.ofNat 10) (parseStrBody fuel cs₁)
      else if e = 'r' then consStr (Char.ofNat 13) (parseStrBody fuel cs₁)
      else if e = 't' then consStr (Char.ofNat 9) (parseStrBody fuel cs₁)
      else if e = 'b' then consStr (Char.ofNat 8) (parseStrBody fuel cs₁)
      else if e = 'f' then consStr (Char.ofNat 12) (parseStrBody fuel cs₁)
      else if e = 'u' then
        match decodeU cs₁ with
        | some (ch, cs') => consStr ch (parseStrBody fuel cs')
        | none => none
      else none
end

/-- String-literal body parse with always-sufficient fuel (the parsers
consume at least one input character per four fuel units). -/
def parseStr (cs : List Char) : Option (List Char × List Char) :=
  parseStrBody (4 * cs.length + 4) cs

/-- Greedy run of decimal digits, folded into an accumulator. -/
def parseDigits : Nat → List Char → Nat × List Char
  | acc, [] => (acc, [])
  | acc, c :: cs =>
    if isDigitC c then parseDigits (acc * 10 + (c.toNat - 48)) cs else (acc, c :: cs)

/-- Whether a fraction or exponent follows, i.e. Python would read a float
(floats are outside this model and treated as unparseable). -/
def floatFollows : List Char → Bool
  | [] => false
  | c :: _ => c = '.' || c = 'e' || c = 'E'

mutual
def parseVal : Nat → List Char → Option (Json × List Char)
  | 0, _ => none
  | fuel+1, cs =>
    match skipWs cs with
    | [] => none
    | c :: rest =>
      if c = '{' then
        match expectChar '}' (skipWs rest) with
        | some r => some (.obj .nil, r)
        | none =>
          match parseObjItems fuel .nil rest with
          | some (o, r) => some (.obj o, r)
          | none => none
      else if c = '[' then
        match expectChar ']' (skipWs rest) with
        | some r => some (.arr .nil, r)
        | none =>
          match parseArrItems fuel rest with
          | some (a, r) => some (.arr a, r)
          | none => none
      else if c = '"' then
        match parseStr rest with
        | some (s, r) => some (.str s, r)
        | none => none
      else if c = 'n' then
        match rest with
        | 'u' :: 'l' :: 'l' :: r => some (.null, r)
        | _ => none
      else if c = 't' then
        match rest with
        | 'r' :: 'u' :: 'e' :: r => some (.bool true, r)
        | _ => none
      else if c = 'f' then
        match rest with
        | 'a' :: 'l' :: 's' :: 'e' :: r => some (.bool false, r)
        | _ => none
      else if c = '-' then
        match rest with
        | d :: rest' =>
          if isDigitC d then
            let p := if d = '0' then (0, rest') else parseDigits (d.toNat - 48) rest'
            if floatFollows p.2 then none else some (.int (-(p.1 : Int)), p.2)
          else none
        | [] => none
      else if isDigitC c then
        let p := if c = '0' then (0, rest) else parseDigits (c.toNat - 48) rest
        if floatFollows p.2 then none else some (.int (p.1 : Int), p.2)
      else none

def parseArrItems : Nat → List Char → Option (JArr × List Char)
  | 0, _ => none
  | fuel+1, cs =>
    match parseVal fuel cs with
    | none => none
    | some (v, rest) =>
      let r1 := skipWs rest
      match expectChar ',' r1 with
      | some r2 =>
        match parseArrItems fuel r2 with
        | some (a, r3) => some (.cons v a, r3)
        | none => none
      | none =>
        match expectChar ']' r1 with
        | some r2 => some (.cons v .nil, r2)
        | none => none

def parseObjItems : Nat → JObj → List Char → Option (JObj × List Char)
  | 0, _, _ => none
  | fuel+1, acc, cs =>
    match expectChar '"' (skipWs cs) with
    | none => none
    | some r =>
      match parseStr r with
      | none => none
      | some (k, r1) =>
        match expectChar ':' (skipWs r1) with
        | none => none
        | some r2 =>
          match parseVal fuel r2 with
          | none => none
          | some (v, r3) =>
            let acc' := acc.set k v
            let r4 := skipWs r3
            match expectChar ',' r4 with
            | some r5 => parseObjItems fuel acc' r5
            | none =>
              match expectChar '}' r4 with
              | some r5 => some (acc', r5)
              | none => none
end

/-- `json.load(f)`: parse the whole file content, requiring only
whitespace after the value. -/
def json_load (cs : List Char) : Option Json :=
  match parseVal (cs.length + 1) cs with
  | some (v, rest) => if (skipWs rest).isEmpty then some v else none
  | none => none


/-! ## Manifest helpers -/

/-- Lookup `j[key]` on an object. -/
def jget (j : Json) (key : List Char) : Option Json :=
  match j with
  | .obj o => o.get key
  | _ => none

/-- Two-level lookup `j[k1][k2]`. -/
def jget2 (j : Json) (k1 k2 : List Char) : Option Json :=
  match jget j k1 with
  | some x => jget x k2
  | none => none

/-- Three-level lookup `j[k1][k2][k3]`. -/
def jget3 (j : Json) (k1 k2 k3 : List Char) : Option Json :=
  match jget2 j k1 k2 with
  | some x => jget x k3
  | none => none

/-- Top-level keys of an object value. -/
def objKeys (j : Json) : List (List Char) :=
  match j with
  | .obj o => o.keys
  | _ => []

/-- The values of an object, in order. -/
def objValues : JObj → List Json
  | .nil => []
  | .cons _ v t => v :: objValues t

/-- The (key, value) pairs of an object, in order. -/
def objEntryList : JObj → List (List Char × Json)
  | .nil => []
  | .cons k v t => (k, v) :: objEntryList t

/-- The elements of a JSON array, as a list. -/
def jarrToList : JArr → List Json
  | .nil => []
  | .cons h t => h :: jarrToList t

/-- Python `d[key] = v` on a JSON object value (inert on non-objects;
every use in the program hits an object). -/
def jset (j : Json) (key : List Char) (v : Json) : Json :=
  match j with
  | .obj o => .obj (o.set key v)
  | _ => j

/-- Python `j[key]` read followed by a mutation of the retrieved dict
(inert when the key is absent; every use in the program hits an existing
key). -/
def jmod (j : Json) (key : List Char) (f : Json → Json) : Json :=
  match j with
  | .obj o =>
    match o.get key with
    | some v => .obj (o.set key (f v))
    | none => j
  | _ => j

/-- Python `j[k1][k2][k3] = v` with `j[k1]` and `j[k1][k2]` present. -/
def jset2 (j : Json) (k1 k2 k3 : List Char) (v : Json) : Json :=
  jmod j k1 (fun inner => jmod inner k2 (fun e => jset e k3 v))

/-! No-duplicate-keys predicates: every Python dict satisfies them, and the
round-trip theorems assume them (a `JObj` with duplicate keys does not
correspond to any Python dict). -/

mutual
def noDupV : Json → Bool
  | .null => true
  | .bool _ => true
  | .int _ => true
  | .str _ => true
  | .arr a => noDupA a
  | .obj o => noDupO o

def noDupA : JArr → Bool
  | .nil => true
  | .cons h t => noDupV h && noDupA t

def noDupO : JObj → Bool
  | .nil => true
  | .cons k v t => !t.containsKey k && noDupV v && noDupO t
end

/-- The repeated `acc[k] = v` assignments the object parser performs, in
stream order. -/
def setAll : JObj → JObj → JObj
  | acc, .nil => acc
  | acc, .cons k v t => setAll (acc.set k v) t

/-! ## ReleaseLocator: `get_tag_and_latest_release_url` -/

/-- The fixed raw-content URL of the script file. -/
def SCRIPT_RAW_URL : List Char :=
  "https://raw.githubusercontent.com/bleach86/mister_cloud_saves/refs/heads/main/scripts/cloud_saves.sh".data

/-- One entry of the release metadata `assets` array: `asset.get("name")`
and `asset.get("browser_download_url")` may each be absent. -/
structure Asset where
  name : Option (List Char)
  browser_download_url : Option (List Char)
deriving DecidableEq

/-- The release metadata response: HTTP status, `data.get("tag_name")`,
`data.get("assets", [])`. -/
structure ReleaseResponse where
  status_code : Nat
  tag_name : Option (List Char)
  assets : List Asset
deriving DecidableEq

/-- Result of the locator: either the pair the `return` produces, or the
`print`-then-`sys.exit(1)` path. -/
inductive LocatorResult where
  | found : Option (List Char) → List Char → LocatorResult
  | exit1 : LocatorResult
deriving DecidableEq

/-- The `for asset in assets: if asset.get("name") == "client.tar.xz"`
loop: first matching asset, if any. -/
def findAsset : List Asset → Option Asset
  | [] => none
  | a :: rest => if a.name = some "client.tar.xz".data then some a else findAsset rest

/-- `get_tag_and_latest_release_url()`: on HTTP 200, return
`(asset.get("browser_download_url"), tag_name)` for the first asset named
`client.tar.xz`; any other path (non-200, or no matching asset) falls
through to the error print and `sys.exit(1)`. -/
def get_tag_and_latest_release_url (r : ReleaseResponse) : LocatorResult :=
  if r.status_code = 200 then
    let tag := r.tag_name.getD "unknown".data
    match findAsset r.assets with
    | some a => .found a.browser_download_url tag
    | none => .exit1
  else .exit1

/-! ## ManifestBuilder: `get_update_db_schema` and `generate_update_db` -/

/-- `get_update_db_schema()`: the fixed template dictionary. -/
def get_update_db_schema : Json :=
  .obj (
    .cons "v".data (.int 1) (
    .cons "db_id".data (.str "mister_cloud_saves".data) (
    .cons "timestamp".data (.int 0) (
    .cons "files".data (.obj (
      .cons "Scripts/cloud_saves.sh".data (.obj (
        .cons "size".data (.int 0) (
        .cons "hash".data (.str []) (
        .cons "url".data (.str []) (
        .cons "tags".data (.arr (.cons (.int 1) .nil)) .nil))))) (
      .cons "cloud_saves/updates/client.tar.xz".data (.obj (
        .cons "size".data (.int 0) (
        .cons "hash".data (.str []) (
        .cons "url".data (.str []) (
        .cons "reboot".data (.bool true) (
        .cons "tags".data (.arr (.cons (.int 0) .nil)) .nil)))))) .nil))) (
    .cons "folders".data (.obj (
      .cons "Scripts".data (.obj .nil) (
      .cons "cloud_saves".data (.obj .nil) (
      .cons "cloud_saves/updates".data (.obj .nil) .nil)))) (
    .cons "tags_dictionary".data (.obj (
      .cons "cloudsaves".data (.int 0) (
      .cons "scripts".data (.int 1) .nil))) .nil))))))

/-- `generate_update_db()`, with the environment made explicit: the release
metadata response `r`, the generation time `now` (`int(time.time())`), and
a fetch oracle giving the HTTP status and streamed chunks each URL returns
(`none` stands for Python passing `None` as the URL). The `sys.exit(1)`
paths of the locator and of the two fetches propagate as `none`. -/
def generate_update_db (r : ReleaseResponse) (now : Int)
    (fetch : Option (List Char) → Nat × List (List Nat)) : Option Json :=
  match get_tag_and_latest_release_url r with
  | .exit1 => none
  | .found client_download_url _tag =>
    let db0 := jset get_update_db_schema "timestamp".data (.int now)
    let sf := fetch (some SCRIPT_RAW_URL)
    match get_file_hash_and_size sf.1 sf.2 with
    | none => none
    | some scriptRes =>
      let db1 := jset2 db0 "files".data "Scripts/cloud_saves.sh".data "size".data
        (.int scriptRes.1)
      let db2 := jset2 db1 "files".data "Scripts/cloud_saves.sh".data "hash".data
        (.str scriptRes.2)
      let db3 := jset2 db2 "files".data "Scripts/cloud_saves.sh".data "url".data
        (.str SCRIPT_RAW_URL)
      let cf := fetch client_download_url
      match get_file_hash_and_size cf.1 cf.2 with
      | none => none
      | some clientRes =>
        let db4 := jset2 db3 "files".data "cloud_saves/updates/client.tar.xz".data
          "size".data (.int clientRes.1)
        let db5 := jset2 db4 "files".data "cloud_saves/updates/client.tar.xz".data
          "hash".data (.str clientRes.2)
        let db6 := jset2 db5 "files".data "cloud_saves/updates/client.tar.xz".data
          "url".data
          (match client_download_url with
           | some u => .str u
           | none => .null)
        some db6

/-- The document `generate_update_db` builds, written out explicitly: the
schema with the timestamp and the two entries' size/hash/url replaced. -/
def builtDoc (now : Int) (ss : Nat) (sh : List Char) (cs : Nat) (ch : List Char)
    (cu : Json) : Json :=
  .obj (
    .cons "v".data (.int 1) (
    .cons "db_id".data (.str "mister_cloud_saves".data) (
    .cons "timestamp".data (.int now) (
    .cons "files".data (.obj (
      .cons "Scripts/cloud_saves.sh".data (.obj (
        .cons "size".data (.int ss) (
        .cons "hash".data (.str sh) (
        .cons "url".data (.str SCRIPT_RAW_URL) (
        .cons "tags".data (.arr (.cons (.int 1) .nil)) .nil))))) (
      .cons "cloud_saves/updates/client.tar.xz".data (.obj (
        .cons "size".data (.int cs) (
        .cons "hash".data (.str ch) (
        .cons "url".data cu (
        .cons "reboot".data (.bool true) (
        .cons "tags".data (.arr (.cons (.int 0) .nil)) .nil)))))) .nil))) (
    .cons "folders".data (.obj (
      .cons "Scripts".data (.obj .nil) (
      .cons "cloud_saves".data (.obj .nil) (
      .cons "cloud_saves/updates".data (.obj .nil) .nil)))) (
    .cons "tags_dictionary".data (.obj (
      .cons "cloudsaves".data (.int 0) (
      .cons "scripts".data (.int 1) .nil))) .nil))))))

/-- Invariant (a) of the data model: every tag id in any file entry's
`tags` occurs among the values of `tags_dictionary`. -/
def tagsClosed (d : Json) : Bool :=
  let tagVals := objValues
    (match jget d "tags_dictionary".data with
     | some (.obj o) => o
     | _ => .nil)
  let fileEntries := objEntryList
    (match jget d "files".data with
     | some (.obj o) => o
     | _ => .nil)
  fileEntries.all (fun kv =>
    (match jget kv.2 "tags".data with
     | some (.arr a) => jarrToList a
     | _ => []).all (fun t => tagVals.contains t))

/-- Invariant (b): the keys of the `files` mapping. -/
def filesKeys (d : Json) : List (List Char) :=
  match jget d "files".data with
  | some (.obj o) => o.keys
  | _ => []

/-! ## PersistenceGate: `save_update_db_to_file_if_changed` -/

/-- Observable outcome of the save: the success print, the no-change print,
or the unguarded `json.load` raising (terminating the run). -/
inductive SaveOutcome where
  | saved : SaveOutcome
  | noChanges : SaveOutcome
  | parseError : SaveOutcome
deriving DecidableEq

/-- `save_update_db_to_file_if_changed(update_db, file_path)`, over the
file state at `file_path` (`none` = absent). Returns the outcome together
with the resulting file content: parse and compare when the file exists
(`json.load` failure propagates, leaving the file untouched), write the
4-space-indented serialization otherwise. -/
def save_update_db_to_file_if_changed (update_db : Json) (file : Option (List Char)) :
    SaveOutcome × Option (List Char) :=
  match file with
  | some content =>
    match json_load content with
    | none => (.parseError, some content)
    | some existing_db =>
      if pyEqV existing_db update_db then (.noChanges, some content)
      else (.saved, some (json_dump update_db))
  | none => (.saved, some (json_dump update_db))

/-! ## Round-trip support -/

/-- Concatenation of association lists. -/
def JObj.append : JObj → JObj → JObj
  | .nil, p => p
  | .cons k v t, p => .cons k v (t.append p)

/-! Fuel consumed by the value parser on a serialized value: one unit per
parser call (string bodies are parsed without fuel). -/

mutual
def costV : Json → Nat
  | .null => 1
  | .bool _ => 1
  | .int _ => 1
  | .str _ => 1
  | .arr a => costA a + 1
  | .obj o => costO o + 1

def costA : JArr → Nat
  | .nil => 0
  | .cons h t => costV h + costA t + 1

def costO : JObj → Nat
  | .nil => 0
  | .cons _ v t => costV v + costO t + 1
end

/-- Fold a digit run into a value, as the greedy digit parser does. -/
def valOfDigits (acc : Nat) (ds : List Char) : Nat :=
  ds.foldl (fun a c => a * 10 + (c.toNat - 48)) acc

/-- Whether a number token ending right before `rest` stays an integer:
no further digit and no fraction/exponent mark follows. -/
def numSafe : List Char → Bool
  | [] => true
  | c :: _ => !(isDigitC c || c = '.' || c = 'e' || c = 'E')

/-! # Theorems -/

/-! ### MD5 chunking lemmas -/

theorem md5ProcessAux_fuel (fuel₁ : Nat) :
    ∀ (fuel₂ : Nat) (h : MD5Words) (bs : List Nat),
      bs.length ≤ 64 * fuel₁ → bs.length ≤ 64 * fuel₂ →
      md5ProcessAux fuel₁ h bs = md5ProcessAux fuel₂ h bs := by
  induction fuel₁ with
  | zero =>
    intro fuel₂ h bs h₁ _
    have hbs : bs = [] := List.length_eq_zero.mp (by omega)
    subst hbs
    cases fuel₂ with
    | zero => rfl
    | succ f => simp [md5ProcessAux]
  | succ f ih =>
    intro fuel₂ h bs h₁ h₂
    cases fuel₂ with
    | zero =>
      have hbs : bs = [] := List.length_eq_zero.mp (by omega)
      subst hbs
      simp [md5ProcessAux]
    | succ f₂ =>
      simp only [md5ProcessAux]
      by_cases hc : 64 ≤ bs.length
      · simp only [if_pos hc]
        exact ih f₂ _ _ (by simp [List.length_drop]; omega) (by simp [List.length_drop]; omega)
      · simp [hc]

theorem md5ProcessAll_eq (h : MD5Words) (bs : List Nat) :
    md5ProcessAll h bs =
      if 64 ≤ bs.length then md5ProcessAll (md5Compress h (bs.take 64)) (bs.drop 64)
      else (h, bs) := by
  by_cases hc : 64 ≤ bs.length
  · simp only [if_pos hc]
    obtain ⟨n, hn⟩ : ∃ n, bs.length = n + 1 := ⟨bs.length - 1, by omega⟩
    have step : md5ProcessAll h bs = md5ProcessAux (n+1) h bs := by
      unfold md5ProcessAll; rw [hn]
    rw [step]
    simp only [md5ProcessAux, if_pos hc]
    unfold md5ProcessAll
    exact md5ProcessAux_fuel n _ _ _ (by simp [List.length_drop]; omega)
      (by simp [List.length_drop]; omega)
  · simp only [if_neg hc]
    cases hl : bs.length with
    | zero =>
      have hbs : bs = [] := List.length_eq_zero.mp hl
      subst hbs; rfl
    | succ n =>
      have step : md5ProcessAll h bs = md5ProcessAux (n+1) h bs := by
        unfold md5ProcessAll; rw [hl]
      rw [step]
      simp [md5ProcessAux, hc]

theorem md5ProcessAll_append (h : MD5Words) (a b : List Nat) :
    md5ProcessAll h (a ++ b) =
      md5ProcessAll (md5ProcessAll h a).1 ((md5ProcessAll h a).2 ++ b) := by
  by_cases hc : 64 ≤ a.length
  · rw [md5ProcessAll_eq h (a ++ b), md5ProcessAll_eq h a]
    have hcab : 64 ≤ (a ++ b).length := by simp [List.length_append]; omega
    rw [if_pos hcab, if_pos hc]
    rw [List.take_append_of_le_length hc, List.drop_append_of_le_length hc]
    exact md5ProcessAll_append (md5Compress h (a.take 64)) (a.drop 64) b
  · rw [md5ProcessAll_eq h a, if_neg hc]
termination_by a.length
decreasing_by simp [List.length_drop]; omega

theorem md5ProcessAll_rem_lt (h : MD5Words) (bs : List Nat) :
    (md5ProcessAll h bs).2.length < 64 := by
  rw [md5ProcessAll_eq]
  by_cases hc : 64 ≤ bs.length
  · rw [if_pos hc]
    exact md5ProcessAll_rem_lt (md5Compress h (bs.take 64)) (bs.drop 64)
  · rw [if_neg hc]; show bs.length < 64; omega
termination_by bs.length
decreasing_by simp [List.length_drop]; omega

theorem md5Update_update (s : MD5State) (a b : List Nat) :
    md5Update (md5Update s a) b = md5Update s (a ++ b) := by
  simp only [md5Update]
  have h1 : s.buf ++ (a ++ b) = (s.buf ++ a) ++ b := by simp [List.append_assoc]
  rw [h1, md5ProcessAll_append s.h (s.buf ++ a) b]
  simp [List.length_append, Nat.add_assoc]

theorem md5Update_nil (s : MD5State) (hs : s.buf.length < 64) : md5Update s [] = s := by
  simp only [md5Update, List.append_nil]
  rw [md5ProcessAll_eq, if_neg (by omega)]
  simp

theorem md5Update_buf_lt (s : MD5State) (chunk : List Nat) :
    (md5Update s chunk).buf.length < 64 :=
  md5ProcessAll_rem_lt s.h (s.buf ++ chunk)

theorem md5_foldl_update (chunks : List (List Nat)) :
    ∀ (s : MD5State), s.buf.length < 64 →
      List.foldl md5Update s chunks = md5Update s chunks.flatten := by
  induction chunks with
  | nil => intro s hs; simpa using (md5Update_nil s hs).symm
  | cons c cs ih =>
    intro s hs
    simp only [List.foldl_cons, List.flatten_cons]
    rw [ih (md5Update s c) (md5Update_buf_lt s c), md5Update_update]

theorem readChunksAux_flatten (fuel : Nat) :
    ∀ bs : List Nat, bs.length ≤ fuel → (readChunksAux fuel bs).flatten = bs := by
  induction fuel with
  | zero =>
    intro bs h
    have hbs : bs = [] := List.length_eq_zero.mp (by omega)
    subst hbs; rfl
  | succ f ih =>
    intro bs h
    simp only [readChunksAux]
    by_cases he : bs.isEmpty
    · simp [List.isEmpty_iff.mp he]
    · rw [if_neg (by simp [he])]
      simp only [List.flatten_cons]
      rw [ih (bs.drop 8192) (by simp [List.length_drop]; omega)]
      exact List.take_append_drop 8192 bs

theorem readChunks_flatten (bs : List Nat) : (readChunks bs).flatten = bs :=
  readChunksAux_flatten bs.length bs le_rfl

theorem compute_file_hash_eq_md5Hex (content : List Nat) :
    compute_file_hash content = md5Hex content := by
  unfold compute_file_hash md5Hex
  rw [md5_foldl_update (readChunks content) md5Init (by simp [md5Init]),
    readChunks_flatten]

/-! ## Claims C4 and C5 -/

/-- C5: the (size, hash) pair depends only on the bytes, not on the chunk
decomposition: folding the incremental hash over any chunk list equals
hashing the concatenation at once; in particular `compute_file_hash`'s
fixed 8192-byte chunking computes `md5Hex`, and `get_file_hash_and_size`
returns the total length and that digest for any chunking of the body. -/
theorem spec_C5_chunk_invariance (chunks : List (List Nat)) :
    md5Finalize (List.foldl md5Update md5Init chunks) = md5Hex chunks.flatten
    ∧ compute_file_hash chunks.flatten = md5Hex chunks.flatten
    ∧ get_file_hash_and_size 200 chunks =
        some ((chunks.map List.length).sum, md5Hex chunks.flatten) := by
  refine ⟨?_, compute_file_hash_eq_md5Hex _, ?_⟩
  · rw [md5_foldl_update chunks md5Init (by simp [md5Init])]; rfl
  · simp [get_file_hash_and_size, compute_file_hash_eq_md5Hex, List.length_flatten]

set_option maxRecDepth 100000 in
/-- C4: a successful fetch whose body is the 11 bytes `b"hello world"`
yields size 11 and the lowercase MD5 hex digest
`5eb63bbbe01eeed093cb22bb8f5acdc3`. -/
theorem spec_C4_hello_world :
    get_file_hash_and_size 200 [[104, 101, 108, 108, 111, 32, 119, 111, 114, 108, 100]] =
      some (11, "5eb63bbbe01eeed093cb22bb8f5acdc3".data) := by
  decide

mutual
theorem pyEqV_refl : ∀ v : Json, pyEqV v v = true
  | .null => rfl
  | .bool b => by simp [pyEqV]
  | .int n => by simp [pyEqV]
  | .str s => by simp [pyEqV]
  | .arr a => by simp only [pyEqV]; exact pyEqA_refl a
  | .obj o => by simp only [pyEqV]; exact pyEqO_refl o

theorem pyEqA_refl : ∀ a : JArr, pyEqA a a = true
  | .nil => rfl
  | .cons h t => by
    simp only [pyEqA]
    rw [pyEqV_refl h, pyEqA_refl t]; rfl

theorem pyEqO_refl : ∀ o : JObj, pyEqO o o = true
  | .nil => rfl
  | .cons k v t => by
    have hx : JObj.extract (JObj.cons k v t) k = some (v, t) := by
      unfold JObj.extract; rw [if_pos rfl]
    simp only [pyEqO, hx]
    rw [pyEqV_refl v, pyEqO_refl t]; rfl
end

/-! ### ReleaseLocator: claims C1 and C10 -/

theorem findAsset_eq_none (as : List Asset)
    (hno : ∀ a ∈ as, a.name ≠ some "client.tar.xz".data) : findAsset as = none := by
  induction as with
  | nil => rfl
  | cons a rest ih =>
    unfold findAsset
    rw [if_neg (hno a (List.mem_cons_self a rest))]
    exact ih (fun x hx => hno x (List.mem_cons_of_mem a hx))

/-- C1 counterexample: on a success (HTTP 200) response whose asset list
has no asset named `client.tar.xz`, the locator does not return silently:
the loop falls through to the error print and `sys.exit(1)`. -/
theorem spec_C1_counterexample :
    get_tag_and_latest_release_url ⟨200, some "v1.2.3".data, []⟩ = LocatorResult.exit1 := by
  decide

/-- C1 (amended): for every success-status response with no asset named
exactly `client.tar.xz`, the locator terminates the run via the error
print and `sys.exit(1)` (the same path as a failed request), rather than
returning a pair of None-like values. -/
theorem spec_C1_amended (r : ReleaseResponse) (h200 : r.status_code = 200)
    (hno : ∀ a ∈ r.assets, a.name ≠ some "client.tar.xz".data) :
    get_tag_and_latest_release_url r = LocatorResult.exit1 := by
  unfold get_tag_and_latest_release_url
  rw [if_pos h200, findAsset_eq_none r.assets hno]

theorem spec_C1_amended_witness :
    get_tag_and_latest_release_url
        ⟨200, none, [⟨some "other.zip".data, some "https://example/x".data⟩]⟩
      = LocatorResult.exit1 :=
  spec_C1_amended _ rfl (by decide)

/-- C10: the generated manifest is independent of the release's tag name:
two success responses differing only in `tag_name` (absence included — the
locator then substitutes `"unknown"`) lead to identical documents for the
same fetched content and timestamp, because the tag is discarded. -/
theorem spec_C10_tag_independent (r₁ r₂ : ReleaseResponse) (now : Int)
    (fetch : Option (List Char) → Nat × List (List Nat))
    (h₁ : r₁.status_code = 200) (h₂ : r₂.status_code = 200)
    (ha : r₁.assets = r₂.assets) :
    generate_update_db r₁ now fetch = generate_update_db r₂ now fetch := by
  unfold generate_update_db get_tag_and_latest_release_url
  rw [h₁, h₂, ha]
  cases hf : findAsset r₂.assets with
  | none => simp
  | some a => simp

theorem spec_C10_tag_independent_witness :
    generate_update_db
        ⟨200, some "v1.2.3".data,
         [⟨some "client.tar.xz".data, some "https://example/client.tar.xz".data⟩]⟩
        5 (fun _ => (200, [[104, 105]]))
      = generate_update_db
        ⟨200, none,
         [⟨some "client.tar.xz".data, some "https://example/client.tar.xz".data⟩]⟩
        5 (fun _ => (200, [[104, 105]])) :=
  spec_C10_tag_independent _ _ 5 _ rfl rfl rfl

/-! ### PersistenceGate: claims C2 and C3 -/

/-- C2: when the file exists and its parsed content equals the new
document (under the `==` the code uses), the gate reports "no changes" and
leaves the content untouched; when the file is absent, or exists and
parses to a different document, it writes the 4-space-indented
serialization and reports success. -/
theorem spec_C2_persistence (d e : Json) (c : List Char) :
    (json_load c = some e → pyEqV e d = true →
      save_update_db_to_file_if_changed d (some c) = (SaveOutcome.noChanges, some c))
    ∧ save_update_db_to_file_if_changed d none = (SaveOutcome.saved, some (json_dump d))
    ∧ (json_load c = some e → pyEqV e d = false →
      save_update_db_to_file_if_changed d (some c) = (SaveOutcome.saved, some (json_dump d))) := by
  refine ⟨?_, rfl, ?_⟩
  · intro hl he
    simp [save_update_db_to_file_if_changed, hl, he]
  · intro hl he
    simp [save_update_db_to_file_if_changed, hl, he]

theorem spec_C2_persistence_witness :
    save_update_db_to_file_if_changed (Json.int 1) (some "1".data)
        = (SaveOutcome.noChanges, some "1".data)
    ∧ save_update_db_to_file_if_changed (Json.int 1) none
        = (SaveOutcome.saved, some (json_dump (Json.int 1)))
    ∧ save_update_db_to_file_if_changed (Json.int 2) (some "1".data)
        = (SaveOutcome.saved, some (json_dump (Json.int 2))) :=
  ⟨(spec_C2_persistence (Json.int 1) (Json.int 1) "1".data).1 (by decide) (by decide),
   (spec_C2_persistence (Json.int 1) (Json.int 1) "1".data).2.1,
   (spec_C2_persistence (Json.int 2) (Json.int 1) "1".data).2.2 (by decide) (by decide)⟩

/-- C3 counterexample: with an existing unparseable file, the gate does
not overwrite it and report success — the unguarded `json.load` raises and
the run dies with the file intact. -/
theorem spec_C3_counterexample :
    save_update_db_to_file_if_changed (Json.int 0) (some "not json".data)
        = (SaveOutcome.parseError, some "not json".data)
    ∧ save_update_db_to_file_if_changed (Json.int 0) (some "not json".data)
        ≠ (SaveOutcome.saved, some (json_dump (Json.int 0))) := by
  decide

/-- C3 (amended): for every document and every existing file whose content
is not parseable as JSON, the save raises (the `json.load` call is
unguarded), terminating the run and leaving the file content unchanged,
rather than overwriting it. -/
theorem spec_C3_amended (d : Json) (c : List Char) (h : json_load c = none) :
    save_update_db_to_file_if_changed d (some c) = (SaveOutcome.parseError, some c) := by
  simp [save_update_db_to_file_if_changed, h]

theorem spec_C3_amended_witness :
    save_update_db_to_file_if_changed (Json.int 7) (some "oops".data)
      = (SaveOutcome.parseError, some "oops".data) :=
  spec_C3_amended (Json.int 7) "oops".data (by decide)

/-! ### ManifestBuilder: claims C8 and C9 -/

theorem generate_update_db_shape (r : ReleaseResponse) (now : Int)
    (fetch : Option (List Char) → Nat × List (List Nat)) (d : Json)
    (h : generate_update_db r now fetch = some d) :
    ∃ (ss : Nat) (sh : List Char) (cs : Nat) (ch : List Char) (cu : Json),
      d = builtDoc now ss sh cs ch cu := by
  unfold generate_update_db at h
  cases hr : get_tag_and_latest_release_url r with
  | exit1 =>
    simp only [hr] at h
    exact Option.noConfusion h
  | found cu tag =>
    simp only [hr] at h
    cases hs : get_file_hash_and_size (fetch (some SCRIPT_RAW_URL)).1
        (fetch (some SCRIPT_RAW_URL)).2 with
    | none =>
      simp only [hs] at h
      exact Option.noConfusion h
    | some sres =>
      simp only [hs] at h
      cases hc : get_file_hash_and_size (fetch cu).1 (fetch cu).2 with
      | none =>
        simp only [hc] at h
        exact Option.noConfusion h
      | some cres =>
        simp only [hc, Option.some.injEq] at h
        subst h
        exact ⟨sres.1, sres.2, cres.1, cres.2,
          (match cu with | some u => .str u | none => .null), by cases cu <;> rfl⟩

/-- C8: every document `generate_update_db` produces satisfies the data
model invariants: (a) every tag id in a file entry's `tags` occurs among
the values of `tags_dictionary`, and (b) `files` holds exactly the two
fixed logical paths, in order, with nothing added or removed. -/
theorem spec_C8_invariants (r : ReleaseResponse) (now : Int)
    (fetch : Option (List Char) → Nat × List (List Nat)) (d : Json)
    (h : generate_update_db r now fetch = some d) :
    tagsClosed d = true
    ∧ filesKeys d
        = ["Scripts/cloud_saves.sh".data, "cloud_saves/updates/client.tar.xz".data] := by
  obtain ⟨ss, sh, cs, ch, cu, rfl⟩ := generate_update_db_shape r now fetch d h
  exact ⟨rfl, rfl⟩

set_option maxRecDepth 100000 in
theorem spec_C8_invariants_witness :
    tagsClosed (builtDoc 5 0 "d41d8cd98f00b204e9800998ecf8427e".data 0
        "d41d8cd98f00b204e9800998ecf8427e".data
        (Json.str "https://example/client.tar.xz".data)) = true
    ∧ filesKeys (builtDoc 5 0 "d41d8cd98f00b204e9800998ecf8427e".data 0
        "d41d8cd98f00b204e9800998ecf8427e".data
        (Json.str "https://example/client.tar.xz".data))
        = ["Scripts/cloud_saves.sh".data, "cloud_saves/updates/client.tar.xz".data] :=
  spec_C8_invariants
    ⟨200, some "v1".data,
     [⟨some "client.tar.xz".data, some "https://example/client.tar.xz".data⟩]⟩
    5 (fun _ => (200, [])) _ (by decide)

/-- C9: the generated document agrees with the fixed template on all
static fields — version, database id, folders, tag dictionary, both
entries' tags, the client entry's reboot flag, and every key list — while
the timestamp carries the injected generation time (the entries' size,
hash and url being the only other refreshed leaves). -/
theorem spec_C9_frame (r : ReleaseResponse) (now : Int)
    (fetch : Option (List Char) → Nat × List (List Nat)) (d : Json)
    (h : generate_update_db r now fetch = some d) :
    jget d "v".data = jget get_update_db_schema "v".data
    ∧ jget d "db_id".data = jget get_update_db_schema "db_id".data
    ∧ jget d "folders".data = jget get_update_db_schema "folders".data
    ∧ jget d "tags_dictionary".data = jget get_update_db_schema "tags_dictionary".data
    ∧ objKeys d = objKeys get_update_db_schema
    ∧ filesKeys d = filesKeys get_update_db_schema
    ∧ jget3 d "files".data "Scripts/cloud_saves.sh".data "tags".data
        = jget3 get_update_db_schema "files".data "Scripts/cloud_saves.sh".data "tags".data
    ∧ jget3 d "files".data "cloud_saves/updates/client.tar.xz".data "tags".data
        = jget3 get_update_db_schema "files".data "cloud_saves/updates/client.tar.xz".data
            "tags".data
    ∧ jget3 d "files".data "cloud_saves/updates/client.tar.xz".data "reboot".data
        = jget3 get_update_db_schema "files".data "cloud_saves/updates/client.tar.xz".data
            "reboot".data
    ∧ (objKeys <$> jget2 d "files".data "Scripts/cloud_saves.sh".data)
        = (objKeys <$> jget2 get_update_db_schema "files".data "Scripts/cloud_saves.sh".data)
    ∧ (objKeys <$> jget2 d "files".data "cloud_saves/updates/client.tar.xz".data)
        = (objKeys <$> jget2 get_update_db_schema "files".data
            "cloud_saves/updates/client.tar.xz".data)
    ∧ jget d "timestamp".data = some (.int now) := by
  obtain ⟨ss, sh, cs, ch, cu, rfl⟩ := generate_update_db_shape r now fetch d h
  exact ⟨rfl, rfl, rfl, rfl, rfl, rfl, rfl, rfl, rfl, rfl, rfl, rfl⟩

set_option maxRecDepth 100000 in
theorem spec_C9_frame_witness :
    jget (builtDoc 7 0 "d41d8cd98f00b204e9800998ecf8427e".data 0
        "d41d8cd98f00b204e9800998ecf8427e".data
        (Json.str "https://example/client.tar.xz".data)) "v".data
      = jget get_update_db_schema "v".data
    ∧ jget (builtDoc 7 0 "d41d8cd98f00b204e9800998ecf8427e".data 0
        "d41d8cd98f00b204e9800998ecf8427e".data
        (Json.str "https://example/client.tar.xz".data)) "timestamp".data
      = some (.int 7) :=
  let res := spec_C9_frame
    ⟨200, some "v1".data,
     [⟨some "client.tar.xz".data, some "https://example/client.tar.xz".data⟩]⟩
    7 (fun _ => (200, [])) _ (by decide)
  ⟨res.1, res.2.2.2.2.2.2.2.2.2.2.2⟩

/-! ### Character facts -/

theorem digitChar_toNat (x : Nat) (h : x < 10) : (digitChar x).toNat = 48 + x := by
  interval_cases x <;> rfl

theorem isDigitC_digitChar (x : Nat) (h : x < 10) : isDigitC (digitChar x) = true := by
  interval_cases x <;> rfl

theorem hexVal_hexChar (x : Nat) (h : x < 16) : hexVal (hexChar x) = some x := by
  interval_cases x <;> rfl

theorem char_valid (c : Char) : c.toNat < 55296 ∨ (57343 < c.toNat ∧ c.toNat < 1114112) :=
  c.valid

theorem mkChar_toNat (c : Char) : mkChar c.toNat = some c := by
  have hv : c.toNat.isValidChar := c.valid
  unfold mkChar
  rw [if_pos hv, Char.ofNat_toNat]

theorem isDigitC_bounds (c : Char) (h : isDigitC c = true) :
    48 ≤ c.toNat ∧ c.toNat ≤ 57 := by
  simpa [isDigitC, Bool.and_eq_true, decide_eq_true_eq] using h

theorem isDigitC_not_ws (c : Char) (h : isDigitC c = true) : isWsC c = false := by
  have hb := isDigitC_bounds c h
  cases hw : isWsC c with
  | false => rfl
  | true =>
    exfalso
    have hw' : ((c = ' ' ∨ c = Char.ofNat 10) ∨ c = Char.ofNat 9) ∨ c = Char.ofNat 13 := by
      simpa [isWsC, Bool.or_eq_true, decide_eq_true_eq] using hw
    rcases hw' with ((h' | h') | h') | h' <;> (subst h'; exact absurd hb (by decide))

theorem isDigitC_ne (c : Char) (h : isDigitC c = true) (x : Char) (hx : 64 ≤ x.toNat ∨ x.toNat ≤ 47) :
    c ≠ x := by
  intro h'
  subst h'
  have hb := isDigitC_bounds c h
  omega

/-! ### Decimal digits of a natural number -/

theorem natCharsAux_fuel (f₁ : Nat) :
    ∀ (f₂ n : Nat), n < f₁ → n < f₂ → natCharsAux f₁ n = natCharsAux f₂ n := by
  induction f₁ with
  | zero => intro f₂ n h₁ _; omega
  | succ f ih =>
    intro f₂ n h₁ h₂
    cases f₂ with
    | zero => omega
    | succ f₂' =>
      simp only [natCharsAux]
      by_cases hn : n < 10
      · rw [if_pos hn, if_pos hn]
      · rw [if_neg hn, if_neg hn]
        rw [ih f₂' (n / 10) (by omega) (by omega)]

theorem natChars_eq (n : Nat) :
    natChars n = if n < 10 then [digitChar n]
      else natChars (n / 10) ++ [digitChar (n % 10)] := by
  by_cases hn : n < 10
  · rw [if_pos hn]
    show natCharsAux (n+1) n = _
    simp only [natCharsAux, if_pos hn]
  · rw [if_neg hn]
    show natCharsAux (n+1) n = _
    simp only [natCharsAux, if_neg hn]
    rw [natCharsAux_fuel n (n / 10 + 1) (n / 10) (by omega) (by omega)]
    rfl

theorem natChars_digits (n : Nat) : ∀ c ∈ natChars n, isDigitC c = true := by
  induction n using Nat.strong_induction_on with
  | _ n ih =>
    rw [natChars_eq]
    by_cases hn : n < 10
    · rw [if_pos hn]
      intro c hc
      rw [List.mem_singleton] at hc
      subst hc
      exact isDigitC_digitChar n hn
    · rw [if_neg hn]
      intro c hc
      rcases List.mem_append.mp hc with h' | h'
      · exact ih (n / 10) (by omega) c h'
      · rw [List.mem_singleton] at h'
        subst h'
        exact isDigitC_digitChar _ (Nat.mod_lt _ (by omega))

theorem natChars_cons (n : Nat) : ∃ c cs, natChars n = c :: cs ∧ isDigitC c = true := by
  induction n using Nat.strong_induction_on with
  | _ n ih =>
    rw [natChars_eq]
    by_cases hn : n < 10
    · exact ⟨digitChar n, [], by rw [if_pos hn], isDigitC_digitChar n hn⟩
    · rw [if_neg hn]
      obtain ⟨c, cs, hc, hd⟩ := ih (n / 10) (by omega)
      exact ⟨c, cs ++ [digitChar (n % 10)], by rw [hc]; rfl, hd⟩

theorem natChars_head_ne_zero : ∀ n : Nat, 1 ≤ n →
    ∀ c cs, natChars n = c :: cs → c ≠ '0' := by
  intro n
  induction n using Nat.strong_induction_on with
  | _ n ih =>
    intro h c cs hc hzero
    subst hzero
    rw [natChars_eq] at hc
    by_cases hn : n < 10
    · rw [if_pos hn] at hc
      injection hc with h1 _
      have h2 := congrArg Char.toNat h1
      rw [digitChar_toNat n hn] at h2
      have h3 : ('0' : Char).toNat = 48 := rfl
      omega
    · rw [if_neg hn] at hc
      obtain ⟨c', cs', hc', _⟩ := natChars_cons (n / 10)
      rw [hc', List.cons_append] at hc
      injection hc with h1 _
      exact ih (n / 10) (by omega) (by omega) c' cs' hc' h1

/-! ### Whitespace and token lemmas -/

theorem skipWs_cons_not (c : Char) (h : isWsC c = false) (rest : List Char) :
    skipWs (c :: rest) = c :: rest := by
  simp [skipWs, h]

theorem skipWs_replicate_space (n : Nat) (rest : List Char) :
    skipWs (List.replicate n ' ' ++ rest) = skipWs rest := by
  induction n with
  | zero => rfl
  | succ m ih =>
    rw [List.replicate_succ, List.cons_append]
    simpa [skipWs] using ih

theorem skipWs_nlIndent (d : Nat) (rest : List Char) :
    skipWs (nlIndent d ++ rest) = skipWs rest := by
  rw [nlIndent, List.cons_append]
  simpa [skipWs] using skipWs_replicate_space (4*d) rest

theorem parseVal_congr (fuel : Nat) (x y : List Char) (h : skipWs x = skipWs y) :
    parseVal fuel x = parseVal fuel y := by
  cases fuel with
  | zero => rfl
  | succ f => simp only [parseVal, h]

theorem parseArrItems_ws (fuel d : Nat) (x : List Char) :
    parseArrItems fuel (nlIndent d ++ x) = parseArrItems fuel x := by
  cases fuel with
  | zero => rfl
  | succ f =>
    simp only [parseArrItems]
    rw [parseVal_congr f (nlIndent d ++ x) x (skipWs_nlIndent d x)]

theorem parseObjItems_ws (fuel d : Nat) (acc : JObj) (x : List Char) :
    parseObjItems fuel acc (nlIndent d ++ x) = parseObjItems fuel acc x := by
  cases fuel with
  | zero => rfl
  | succ f =>
    simp only [parseObjItems]
    rw [skipWs_nlIndent d x]

/-! ### String escaping round-trip -/

theorem parseStrBody_bs (fuel : Nat) (cs : List Char) :
    parseStrBody (fuel+1) ('\\' :: cs) = parseEscSeq fuel cs := by
  simp only [parseStrBody]
  rfl

theorem parseEscSeq_u (fuel : Nat) (cs : List Char) :
    parseEscSeq (fuel+1) ('u' :: cs) =
      (match decodeU cs with
       | some (ch, cs') => consStr ch (parseStrBody fuel cs')
       | none => none) := by
  simp only [parseEscSeq]
  rfl

theorem hexVal4_hexChar (a b c d : Nat) (ha : a < 16) (hb : b < 16) (hc : c < 16)
    (hd : d < 16) :
    hexVal4 (hexChar a) (hexChar b) (hexChar c) (hexChar d)
      = some (4096*a + 256*b + 16*c + d) := by
  unfold hexVal4
  rw [hexVal_hexChar _ ha, hexVal_hexChar _ hb, hexVal_hexChar _ hc, hexVal_hexChar _ hd]

theorem decodeU_bmp (n : Nat) (hlt : n < 65536) (hns : ¬(55296 ≤ n ∧ n ≤ 57343))
    (rest : List Char) :
    decodeU (hexChar (n / 4096 % 16) :: hexChar (n / 256 % 16) :: hexChar (n / 16 % 16)
        :: hexChar (n % 16) :: rest)
      = some (Char.ofNat n, rest) := by
  have hx := hexVal4_hexChar (n / 4096 % 16) (n / 256 % 16) (n / 16 % 16) (n % 16)
    (Nat.mod_lt _ (by omega)) (Nat.mod_lt _ (by omega)) (Nat.mod_lt _ (by omega))
    (Nat.mod_lt _ (by omega))
  have hrec : 4096 * (n / 4096 % 16) + 256 * (n / 256 % 16) + 16 * (n / 16 % 16) + n % 16
      = n := by omega
  rw [hrec] at hx
  have hmk : mkChar n = some (Char.ofNat n) := by
    unfold mkChar
    rw [if_pos (by unfold Nat.isValidChar; omega)]
  simp only [decodeU, hx]
  rw [if_neg (by omega : ¬(55296 ≤ n ∧ n ≤ 56319)),
    if_neg (by omega : ¬(56320 ≤ n ∧ n ≤ 57343)), hmk]
  rfl

theorem decodeU_pair (x1 x2 x3 x4 y3 y4 y5 y6 : Char) (hi lo : Nat) (rest : List Char)
    (hx1 : hexVal4 x1 x2 x3 x4 = some hi) (hhi : 55296 ≤ hi ∧ hi ≤ 56319)
    (hx2 : hexVal4 y3 y4 y5 y6 = some lo) (hlo : 56320 ≤ lo ∧ lo ≤ 57343) :
    decodeU (x1 :: x2 :: x3 :: x4 :: '\\' :: 'u' :: y3 :: y4 :: y5 :: y6 :: rest)
      = (mkChar (65536 + 1024 * (hi - 55296) + (lo - 56320))).map (fun ch => (ch, rest)) := by
  simp only [decodeU, hx1, hx2]
  rw [if_pos hhi, if_pos (⟨trivial, trivial⟩ : True ∧ True), if_pos hlo]

theorem decodeU_surrogate (c : Char) (h : 65536 ≤ c.toNat) (rest : List Char) :
    decodeU (hexChar ((55296 + (c.toNat - 65536) / 1024) / 4096 % 16)
        :: hexChar ((55296 + (c.toNat - 65536) / 1024) / 256 % 16)
        :: hexChar ((55296 + (c.toNat - 65536) / 1024) / 16 % 16)
        :: hexChar ((55296 + (c.toNat - 65536) / 1024) % 16)
        :: '\\' :: 'u'
        :: hexChar ((56320 + (c.toNat - 65536) % 1024) / 4096 % 16)
        :: hexChar ((56320 + (c.toNat - 65536) % 1024) / 256 % 16)
        :: hexChar ((56320 + (c.toNat - 65536) % 1024) / 16 % 16)
        :: hexChar ((56320 + (c.toNat - 65536) % 1024) % 16)
        :: rest)
      = some (c, rest) := by
  have hv := char_valid c
  set t := c.toNat - 65536 with ht
  have htb : t < 1048576 := by omega
  have hx1 := hexVal4_hexChar ((55296 + t / 1024) / 4096 % 16) ((55296 + t / 1024) / 256 % 16)
    ((55296 + t / 1024) / 16 % 16) ((55296 + t / 1024) % 16)
    (Nat.mod_lt _ (by omega)) (Nat.mod_lt _ (by omega)) (Nat.mod_lt _ (by omega))
    (Nat.mod_lt _ (by omega))
  have hr1 : 4096 * ((55296 + t / 1024) / 4096 % 16) + 256 * ((55296 + t / 1024) / 256 % 16)
      + 16 * ((55296 + t / 1024) / 16 % 16) + (55296 + t / 1024) % 16
      = 55296 + t / 1024 := by omega
  rw [hr1] at hx1
  have hx2 := hexVal4_hexChar ((56320 + t % 1024) / 4096 % 16) ((56320 + t % 1024) / 256 % 16)
    ((56320 + t % 1024) / 16 % 16) ((56320 + t % 1024) % 16)
    (Nat.mod_lt _ (by omega)) (Nat.mod_lt _ (by omega)) (Nat.mod_lt _ (by omega))
    (Nat.mod_lt _ (by omega))
  have hr2 : 4096 * ((56320 + t % 1024) / 4096 % 16) + 256 * ((56320 + t % 1024) / 256 % 16)
      + 16 * ((56320 + t % 1024) / 16 % 16) + (56320 + t % 1024) % 16
      = 56320 + t % 1024 := by omega
  rw [hr2] at hx2
  rw [decodeU_pair _ _ _ _ _ _ _ _ (55296 + t / 1024) (56320 + t % 1024) rest hx1
    (by omega) hx2 (by omega)]
  rw [show 65536 + 1024 * (55296 + t / 1024 - 55296) + (56320 + t % 1024 - 56320) = c.toNat
    from by omega]
  rw [mkChar_toNat]
  rfl

theorem parseEscSeq_q (fuel : Nat) (cs : List Char) :
    parseEscSeq (fuel+1) ('"' :: cs) = consStr '"' (parseStrBody fuel cs) := by
  simp only [parseEscSeq]
  rfl

theorem parseEscSeq_bs (fuel : Nat) (cs : List Char) :
    parseEscSeq (fuel+1) ('\\' :: cs) = consStr '\\' (parseStrBody fuel cs) := by
  simp only [parseEscSeq]
  rfl

theorem parseEscSeq_n (fuel : Nat) (cs : List Char) :
    parseEscSeq (fuel+1) ('n' :: cs) = consStr (Char.ofNat 10) (parseStrBody fuel cs) := by
  simp only [parseEscSeq]
  rfl

theorem parseEscSeq_r (fuel : Nat) (cs : List Char) :
    parseEscSeq (fuel+1) ('r' :: cs) = consStr (Char.ofNat 13) (parseStrBody fuel cs) := by
  simp only [parseEscSeq]
  rfl

theorem parseEscSeq_t (fuel : Nat) (cs : List Char) :
    parseEscSeq (fuel+1) ('t' :: cs) = consStr (Char.ofNat 9) (parseStrBody fuel cs) := by
  simp only [parseEscSeq]
  rfl

theorem parseEscSeq_b (fuel : Nat) (cs : List Char) :
    parseEscSeq (fuel+1) ('b' :: cs) = consStr (Char.ofNat 8) (parseStrBody fuel cs) := by
  simp only [parseEscSeq]
  rfl

theorem parseEscSeq_f (fuel : Nat) (cs : List Char) :
    parseEscSeq (fuel+1) ('f' :: cs) = consStr (Char.ofNat 12) (parseStrBody fuel cs) := by
  simp only [parseEscSeq]
  rfl

theorem escapeList_cons (c : Char) (s : List Char) :
    escapeList (c :: s) = escapeChar c ++ escapeList s := by
  simp [escapeList]

theorem parseStrBody_escapeList : ∀ (s : List Char) (fuel : Nat) (rest : List Char),
    4 * (escapeList s).length + 1 ≤ fuel →
    parseStrBody fuel (escapeList s ++ '"' :: rest) = some (s, rest) := by
  intro s
  induction s with
  | nil =>
    intro fuel rest hf
    obtain ⟨f, rfl⟩ : ∃ f, fuel = f + 1 := ⟨fuel - 1, by omega⟩
    show parseStrBody (f + 1) ('"' :: rest) = some ([], rest)
    simp only [parseStrBody]
    rfl
  | cons c s' ih =>
    intro fuel rest hf
    rw [escapeList_cons, List.length_append] at hf
    rw [escapeList_cons, List.append_assoc]
    by_cases h1 : c = '"'
    · subst h1
      obtain ⟨f, rfl⟩ : ∃ f, fuel = f + 2 := ⟨fuel - 2, by
        have : (escapeChar '"').length = 2 := rfl
        omega⟩
      rw [show escapeChar '"' = ['\\', '"'] from rfl]
      rw [List.cons_append, List.cons_append, List.nil_append]
      rw [show f + 2 = (f + 1) + 1 from rfl, parseStrBody_bs, parseEscSeq_q,
        ih f rest (by have : (escapeChar '"').length = 2 := rfl; omega) ]
      rfl
    · by_cases h2 : c = '\\'
      · subst h2
        obtain ⟨f, rfl⟩ : ∃ f, fuel = f + 2 := ⟨fuel - 2, by
          have : (escapeChar '\\').length = 2 := rfl
          omega⟩
        rw [show escapeChar '\\' = ['\\', '\\'] from rfl]
        rw [List.cons_append, List.cons_append, List.nil_append]
        rw [show f + 2 = (f + 1) + 1 from rfl, parseStrBody_bs, parseEscSeq_bs,
          ih f rest (by have : (escapeChar '\\').length = 2 := rfl; omega)]
        rfl
      · by_cases h3 : c = Char.ofNat 10
        · subst h3
          obtain ⟨f, rfl⟩ : ∃ f, fuel = f + 2 := ⟨fuel - 2, by
            have : (escapeChar (Char.ofNat 10)).length = 2 := rfl
            omega⟩
          rw [show escapeChar (Char.ofNat 10) = ['\\', 'n'] from rfl]
          rw [List.cons_append, List.cons_append, List.nil_append]
          rw [show f + 2 = (f + 1) + 1 from rfl, parseStrBody_bs, parseEscSeq_n,
            ih f rest (by have : (escapeChar (Char.ofNat 10)).length = 2 := rfl; omega)]
          rfl
        · by_cases h4 : c = Char.ofNat 13
          · subst h4
            obtain ⟨f, rfl⟩ : ∃ f, fuel = f + 2 := ⟨fuel - 2, by
              have : (escapeChar (Char.ofNat 13)).length = 2 := rfl
              omega⟩
            rw [show escapeChar (Char.ofNat 13) = ['\\', 'r'] from rfl]
            rw [List.cons_append, List.cons_append, List.nil_append]
            rw [show f + 2 = (f + 1) + 1 from rfl, parseStrBody_bs, parseEscSeq_r,
              ih f rest (by have : (escapeChar (Char.ofNat 13)).length = 2 := rfl; omega)]
            rfl
          · by_cases h5 : c = Char.ofNat 9
            · subst h5
              obtain ⟨f, rfl⟩ : ∃ f, fuel = f + 2 := ⟨fuel - 2, by
                have : (escapeChar (Char.ofNat 9)).length = 2 := rfl
                omega⟩
              rw [show escapeChar (Char.ofNat 9) = ['\\', 't'] from rfl]
              rw [List.cons_append, List.cons_append, List.nil_append]
              rw [show f + 2 = (f + 1) + 1 from rfl, parseStrBody_bs, parseEscSeq_t,
                ih f rest (by have : (escapeChar (Char.ofNat 9)).length = 2 := rfl; omega)]
              rfl
            · by_cases h6 : c = Char.ofNat 8
              · subst h6
                obtain ⟨f, rfl⟩ : ∃ f, fuel = f + 2 := ⟨fuel - 2, by
                  have : (escapeChar (Char.ofNat 8)).length = 2 := rfl
                  omega⟩
                rw [show escapeChar (Char.ofNat 8) = ['\\', 'b'] from rfl]
                rw [List.cons_append, List.cons_append, List.nil_append]
                rw [show f + 2 = (f + 1) + 1 from rfl, parseStrBody_bs, parseEscSeq_b,
                  ih f rest (by have : (escapeChar (Char.ofNat 8)).length = 2 := rfl; omega)]
                rfl
              · by_cases h7 : c = Char.ofNat 12
                · subst h7
                  obtain ⟨f, rfl⟩ : ∃ f, fuel = f + 2 := ⟨fuel - 2, by
                    have : (escapeChar (Char.ofNat 12)).length = 2 := rfl
                    omega⟩
                  rw [show escapeChar (Char.ofNat 12) = ['\\', 'f'] from rfl]
                  rw [List.cons_append, List.cons_append, List.nil_append]
                  rw [show f + 2 = (f + 1) + 1 from rfl, parseStrBody_bs, parseEscSeq_f,
                    ih f rest (by have : (escapeChar (Char.ofNat 12)).length = 2 := rfl; omega)]
                  rfl
                · have hesc : escapeChar c =
                      (if c.toNat < 32 ∨ 126 < c.toNat then
                        if c.toNat < 65536 then uEscape c.toNat
                        else uEscape (55296 + (c.toNat - 65536) / 1024)
                          ++ uEscape (56320 + (c.toNat - 65536) % 1024)
                      else [c]) := by
                    unfold escapeChar
                    rw [if_neg h1, if_neg h2, if_neg h3, if_neg h4, if_neg h5, if_neg h6,
                      if_neg h7]
                  by_cases h8 : c.toNat < 32 ∨ 126 < c.toNat
                  · rw [if_pos h8] at hesc
                    by_cases h9 : c.toNat < 65536
                    · rw [if_pos h9] at hesc
                      have hns : ¬(55296 ≤ c.toNat ∧ c.toNat ≤ 57343) := by
                        have := char_valid c
                        omega
                      have hlen : (escapeChar c).length = 6 := by rw [hesc]; rfl
                      obtain ⟨f, rfl⟩ : ∃ f, fuel = f + 2 := ⟨fuel - 2, by omega⟩
                      have hb : 4 * (escapeList s').length + 1 ≤ f := by omega
                      rw [hesc, uEscape]
                      rw [List.cons_append, List.cons_append, List.cons_append,
                        List.cons_append, List.cons_append, List.cons_append,
                        List.nil_append]
                      rw [show f + 2 = (f + 1) + 1 from rfl, parseStrBody_bs, parseEscSeq_u,
                        decodeU_bmp c.toNat h9 hns, Char.ofNat_toNat]
                      show consStr c (parseStrBody f (escapeList s' ++ '"' :: rest))
                        = some (c :: s', rest)
                      rw [ih f rest hb]
                      rfl
                    · rw [if_neg h9] at hesc
                      have hlen : (escapeChar c).length = 12 := by rw [hesc]; rfl
                      obtain ⟨f, rfl⟩ : ∃ f, fuel = f + 2 := ⟨fuel - 2, by omega⟩
                      have hb : 4 * (escapeList s').length + 1 ≤ f := by omega
                      rw [hesc]
                      simp only [uEscape, List.cons_append, List.nil_append,
                        List.append_assoc]
                      rw [show f + 2 = (f + 1) + 1 from rfl, parseStrBody_bs, parseEscSeq_u,
                        decodeU_surrogate c (by omega)]
                      show consStr c (parseStrBody f (escapeList s' ++ '"' :: rest))
                        = some (c :: s', rest)
                      rw [ih f rest hb]
                      rfl
                  · rw [if_neg h8] at hesc
                    have hlen : (escapeChar c).length = 1 := by rw [hesc]; rfl
                    obtain ⟨f, rfl⟩ : ∃ f, fuel = f + 1 := ⟨fuel - 1, by omega⟩
                    have hb : 4 * (escapeList s').length + 1 ≤ f := by omega
                    rw [hesc, List.cons_append, List.nil_append]
                    simp only [parseStrBody]
                    rw [if_neg h1, if_neg h2, if_neg (by omega : ¬ c.toNat < 32)]
                    rw [ih f rest hb]
                    rfl

theorem parseStr_escapeList (s : List Char) (rest : List Char) :
    parseStr (escapeList s ++ '"' :: rest) = some (s, rest) := by
  unfold parseStr
  exact parseStrBody_escapeList s _ rest
    (by simp [List.length_append, List.length_cons]; omega)

/-! ### Number tokens -/

theorem numSafe_not_digit (c : Char) (cs : List Char) (h : numSafe (c :: cs) = true) :
    isDigitC c = false := by
  simp only [numSafe, Bool.not_eq_true', Bool.or_eq_false_iff] at h
  exact h.1.1.1

theorem parseDigits_append (ds : List Char) : ∀ (acc : Nat) (rest : List Char),
    (∀ c ∈ ds, isDigitC c = true) → numSafe rest = true →
    parseDigits acc (ds ++ rest) = (valOfDigits acc ds, rest) := by
  induction ds with
  | nil =>
    intro acc rest hd hs
    cases rest with
    | nil => rfl
    | cons c cs =>
      simp only [List.nil_append, parseDigits, numSafe_not_digit c cs hs]
      rfl
  | cons d ds ih =>
    intro acc rest hd hs
    rw [List.cons_append]
    simp only [parseDigits, hd d (List.mem_cons_self d ds), if_pos]
    rw [ih _ rest (fun c hc => hd c (List.mem_cons_of_mem d hc)) hs]
    rfl

theorem valOfDigits_cons (acc : Nat) (c : Char) (cs : List Char) :
    valOfDigits acc (c :: cs) = valOfDigits (acc * 10 + (c.toNat - 48)) cs := rfl

theorem valOfDigits_natChars : ∀ (n : Nat) (acc : Nat),
    valOfDigits acc (natChars n) = acc * 10 ^ (natChars n).length + n := by
  intro n
  induction n using Nat.strong_induction_on with
  | _ n ih =>
    intro acc
    rw [natChars_eq]
    by_cases hn : n < 10
    · rw [if_pos hn]
      show valOfDigits acc [digitChar n] = acc * 10 ^ 1 + n
      rw [valOfDigits_cons, digitChar_toNat n hn]
      show acc * 10 + (48 + n - 48) = acc * 10 ^ 1 + n
      rw [pow_one]
      omega
    · rw [if_neg hn]
      unfold valOfDigits
      rw [List.foldl_append]
      have hx := ih (n / 10) (by omega) acc
      unfold valOfDigits at hx
      rw [hx]
      simp only [List.foldl_cons, List.foldl_nil, List.length_append, List.length_cons,
        List.length_nil]
      rw [digitChar_toNat _ (Nat.mod_lt _ (by omega))]
      have hmod : n / 10 * 10 + n % 10 = n := by omega
      calc (acc * 10 ^ (natChars (n / 10)).length + n / 10) * 10 + (48 + n % 10 - 48)
          = acc * (10 ^ (natChars (n / 10)).length * 10) + (n / 10 * 10 + n % 10) := by
            ring_nf
            omega
        _ = acc * 10 ^ ((natChars (n / 10)).length + 1) + n := by
            rw [hmod, pow_succ]

theorem parseNum_natChars (n : Nat) (rest : List Char) (hs : numSafe rest = true) :
    ∃ c cs, natChars n = c :: cs ∧ isDigitC c = true ∧
      (if c = '0' then ((0 : Nat), cs ++ rest) else parseDigits (c.toNat - 48) (cs ++ rest))
        = (n, rest) := by
  obtain ⟨c, cs, hc, hd⟩ := natChars_cons n
  refine ⟨c, cs, hc, hd, ?_⟩
  by_cases hz : c = '0'
  · rw [if_pos hz]
    have hn0 : n = 0 := by
      by_contra hne
      exact natChars_head_ne_zero n (by omega) c cs hc hz
    subst hn0
    have h0 : natChars 0 = ['0'] := rfl
    rw [h0] at hc
    injection hc with _ h2
    rw [← h2, List.nil_append]
  · rw [if_neg hz]
    have hall : ∀ x ∈ cs, isDigitC x = true := by
      intro x hx
      exact natChars_digits n x (by rw [hc]; exact List.mem_cons_of_mem c hx)
    rw [parseDigits_append cs _ rest hall hs]
    have hv := valOfDigits_natChars n 0
    rw [hc, valOfDigits_cons] at hv
    simp only [Nat.zero_mul, Nat.zero_add] at hv
    rw [hv]

/-! ### Serialized values: head characters -/

theorem jdumpVal_head (v : Json) (d : Nat) :
    ∃ c cs, jdumpVal v d = c :: cs ∧ isWsC c = false ∧ c ≠ ']' := by
  cases v with
  | null => exact ⟨'n', _, rfl, by decide, by decide⟩
  | bool b =>
    cases b with
    | false => exact ⟨'f', _, rfl, by decide, by decide⟩
    | true => exact ⟨'t', _, rfl, by decide, by decide⟩
  | int n =>
    show ∃ c cs, intChars n = c :: cs ∧ isWsC c = false ∧ c ≠ ']'
    unfold intChars
    by_cases hn : n < 0
    · rw [if_pos hn]
      exact ⟨'-', _, rfl, by decide, by decide⟩
    · rw [if_neg hn]
      obtain ⟨c, cs, hc, hd⟩ := natChars_cons n.toNat
      exact ⟨c, cs, hc, isDigitC_not_ws c hd, isDigitC_ne c hd ']' (by decide)⟩
  | str s => exact ⟨'"', _, rfl, by decide, by decide⟩
  | arr a =>
    cases a with
    | nil => exact ⟨'[', _, rfl, by decide, by decide⟩
    | cons h t => exact ⟨'[', _, rfl, by decide, by decide⟩
  | obj o =>
    cases o with
    | nil => exact ⟨'{', _, rfl, by decide, by decide⟩
    | cons k v t => exact ⟨'{', _, rfl, by decide, by decide⟩

/-! ### Rebuilding objects from repeated `d[k] = v` assignments -/

theorem JObj.append_nil : ∀ (o : JObj), o.append .nil = o
  | .nil => rfl
  | .cons k v t => by simp only [JObj.append, JObj.append_nil t]

theorem JObj.append_assoc : ∀ (a b c : JObj), (a.append b).append c = a.append (b.append c)
  | .nil, _, _ => rfl
  | .cons k v t, b, c => by simp only [JObj.append, JObj.append_assoc t b c]

theorem JObj.containsKey_append : ∀ (a b : JObj) (k : List Char),
    (a.append b).containsKey k = (a.containsKey k || b.containsKey k)
  | .nil, _, _ => rfl
  | .cons k' v t, b, k => by
    simp only [JObj.append, JObj.containsKey, JObj.containsKey_append t b k, Bool.or_assoc]

theorem JObj.set_of_not_contains : ∀ (o : JObj) (k : List Char) (v : Json),
    o.containsKey k = false → o.set k v = o.append (.cons k v .nil)
  | .nil, _, _, _ => rfl
  | .cons k' w t, k, v, h => by
    simp only [JObj.containsKey, Bool.or_eq_false_iff] at h
    simp only [JObj.set, JObj.append]
    rw [if_neg (by simpa using h.1), JObj.set_of_not_contains t k v h.2]

theorem setAll_append : ∀ (o acc : JObj), noDupO o = true →
    (∀ k, o.containsKey k = true → acc.containsKey k = false) →
    setAll acc o = acc.append o
  | .nil, acc, _, _ => by rw [setAll, JObj.append_nil]
  | .cons k v t, acc, hnd, hdisj => by
    have hnd' : (t.containsKey k = false ∧ noDupV v = true) ∧ noDupO t = true := by
      simpa [noDupO, Bool.and_eq_true, Bool.not_eq_true'] using hnd
    have hkacc : acc.containsKey k = false :=
      hdisj k (by simp [JObj.containsKey])
    show setAll (acc.set k v) t = _
    rw [JObj.set_of_not_contains acc k v hkacc]
    rw [setAll_append t (acc.append (.cons k v .nil)) hnd'.2 ?_]
    · rw [JObj.append_assoc]
      rfl
    · intro k' hk'
      rw [JObj.containsKey_append]
      have h1 : acc.containsKey k' = false :=
        hdisj k' (by simp [JObj.containsKey, hk'])
      have h2 : k ≠ k' := by
        intro he
        subst he
        rw [hnd'.1.1] at hk'
        exact Bool.false_ne_true hk'
      simp [JObj.containsKey, h1, h2]

theorem setAll_nil_of_noDup (o : JObj) (h : noDupO o = true) : setAll .nil o = o := by
  rw [setAll_append o .nil h (fun k _ => rfl)]
  rfl

/-! ### Round-trip: parsing a serialized value -/

theorem skipWs_cons_ws (c : Char) (h : isWsC c = true) (rest : List Char) :
    skipWs (c :: rest) = skipWs rest := by
  simp [skipWs, h]

theorem expectChar_eq (c : Char) (xs : List Char) : expectChar c (c :: xs) = some xs := by
  simp [expectChar]

theorem expectChar_ne (c x : Char) (xs : List Char) (h : x ≠ c) :
    expectChar c (x :: xs) = none := by
  simp [expectChar, h]

theorem numSafe_cons (c : Char) (cs : List Char) :
    numSafe (c :: cs) = !(isDigitC c || c = '.' || c = 'e' || c = 'E') := rfl

theorem numSafe_nlIndent (j : Nat) (x : List Char) : numSafe (nlIndent j ++ x) = true := by
  rw [nlIndent, List.cons_append]
  rfl

theorem numSafe_comma (x : List Char) : numSafe (',' :: x) = true := rfl

theorem numSafe_not_float (rest : List Char) (h : numSafe rest = true) :
    floatFollows rest = false := by
  cases rest with
  | nil => rfl
  | cons c cs =>
    simp only [numSafe, Bool.not_eq_true', Bool.or_eq_false_iff] at h
    simp [floatFollows, h.1.1.2, h.1.2, h.2]

theorem parseVal_digit (f : Nat) (c : Char) (T : List Char) (hd : isDigitC c = true) :
    parseVal (f+1) (c :: T) =
      (let p := if c = '0' then ((0 : Nat), T) else parseDigits (c.toNat - 48) T
       if floatFollows p.2 then none else some (.int (p.1 : Int), p.2)) := by
  simp only [parseVal]
  rw [skipWs_cons_not c (isDigitC_not_ws c hd)]
  dsimp only
  rw [if_neg (isDigitC_ne c hd '{' (by decide)), if_neg (isDigitC_ne c hd '[' (by decide)),
    if_neg (isDigitC_ne c hd '"' (by decide)), if_neg (isDigitC_ne c hd 'n' (by decide)),
    if_neg (isDigitC_ne c hd 't' (by decide)), if_neg (isDigitC_ne c hd 'f' (by decide)),
    if_neg (isDigitC_ne c hd '-' (by decide)), if_pos hd]

mutual
theorem parseVal_jdump : ∀ (v : Json) (fuel d : Nat) (rest : List Char),
    costV v ≤ fuel → noDupV v = true → numSafe rest = true →
    parseVal fuel (jdumpVal v d ++ rest) = some (v, rest)
  | .null => by
    intro fuel d rest hc _ _
    obtain ⟨f, rfl⟩ : ∃ f, fuel = f + 1 :=
      ⟨fuel - 1, by have h1 : costV .null = 1 := rfl; omega⟩
    rfl
  | .bool true => by
    intro fuel d rest hc _ _
    obtain ⟨f, rfl⟩ : ∃ f, fuel = f + 1 :=
      ⟨fuel - 1, by have h1 : costV (.bool true) = 1 := rfl; omega⟩
    rfl
  | .bool false => by
    intro fuel d rest hc _ _
    obtain ⟨f, rfl⟩ : ∃ f, fuel = f + 1 :=
      ⟨fuel - 1, by have h1 : costV (.bool false) = 1 := rfl; omega⟩
    rfl
  | .int n => by
    intro fuel d rest hc _ hs
    obtain ⟨f, rfl⟩ : ∃ f, fuel = f + 1 :=
      ⟨fuel - 1, by have h1 : costV (.int n) = 1 := rfl; omega⟩
    show parseVal (f+1) (intChars n ++ rest) = some (.int n, rest)
    by_cases hneg : n < 0
    · unfold intChars
      rw [if_pos hneg, List.cons_append]
      have hmin : ∀ x : List Char, parseVal (f+1) ('-' :: x) =
          (match x with
           | d' :: rest' =>
             if isDigitC d' then
               let p := if d' = '0' then ((0 : Nat), rest')
                 else parseDigits (d'.toNat - 48) rest'
               if floatFollows p.2 then none else some (.int (-(p.1 : Int)), p.2)
             else none
           | [] => none) := fun x => rfl
      rw [hmin]
      obtain ⟨c, cs, hcc, hd, hp⟩ := parseNum_natChars n.natAbs rest hs
      rw [hcc, List.cons_append]
      dsimp only
      rw [if_pos hd]
      simp only [hp]
      rw [numSafe_not_float rest hs]
      rw [if_neg (by decide : ¬ ((false : Bool) = true))]
      have hval : -((n.natAbs : Nat) : Int) = n := by omega
      rw [hval]
    · unfold intChars
      rw [if_neg hneg]
      obtain ⟨c, cs, hcc, hd, hp⟩ := parseNum_natChars n.toNat rest hs
      rw [hcc, List.cons_append, parseVal_digit f c (cs ++ rest) hd]
      simp only [hp]
      rw [numSafe_not_float rest hs]
      rw [if_neg (by decide : ¬ ((false : Bool) = true))]
      have hval : ((n.toNat : Nat) : Int) = n := by omega
      rw [hval]
  | .str s => by
    intro fuel d rest hc _ _
    obtain ⟨f, rfl⟩ : ∃ f, fuel = f + 1 :=
      ⟨fuel - 1, by have h1 : costV (.str s) = 1 := rfl; omega⟩
    show parseVal (f+1) (quoteStr s ++ rest) = some (.str s, rest)
    rw [quoteStr, List.cons_append]
    have hq : ∀ x : List Char, parseVal (f+1) ('"' :: x) =
        (match parseStr x with
         | some (s', r) => some (.str s', r)
         | none => none) := fun x => rfl
    rw [hq, List.append_assoc]
    rw [show (['"'] : List Char) ++ rest = '"' :: rest from rfl]
    rw [parseStr_escapeList]
  | .arr .nil => by
    intro fuel d rest hc _ _
    obtain ⟨f, rfl⟩ : ∃ f, fuel = f + 1 :=
      ⟨fuel - 1, by have h1 : costV (.arr .nil) = 1 := rfl; omega⟩
    rfl
  | .arr (.cons h t) => by
    intro fuel d rest hc hnd hs
    have hc' : costA (.cons h t) + 1 ≤ fuel := by
      have h1 : costV (.arr (.cons h t)) = costA (.cons h t) + 1 := rfl
      omega
    obtain ⟨f, rfl⟩ : ∃ f, fuel = f + 1 := ⟨fuel - 1, by omega⟩
    have hnda : noDupA (.cons h t) = true := by
      have h1 : noDupV (.arr (.cons h t)) = noDupA (.cons h t) := rfl
      rw [h1] at hnd
      exact hnd
    have harr : ∀ x : List Char, parseVal (f+1) ('[' :: x) =
        (match expectChar ']' (skipWs x) with
         | some r => some (.arr .nil, r)
         | none =>
           match parseArrItems f x with
           | some (a, r) => some (.arr a, r)
           | none => none) := fun x => rfl
    rw [show jdumpVal (.arr (.cons h t)) d =
        '[' :: (nlIndent (d+1) ++ jdumpArrItems (.cons h t) (d+1) ++ nlIndent d ++ [']'])
        from rfl]
    rw [List.cons_append, harr]
    rw [show (nlIndent (d+1) ++ jdumpArrItems (.cons h t) (d+1) ++ nlIndent d ++ [']'])
          ++ rest
        = nlIndent (d+1) ++ (jdumpArrItems (.cons h t) (d+1)
          ++ (nlIndent d ++ (']' :: rest)))
        from by simp [List.append_assoc]]
    obtain ⟨c₀, cs₀, hC, hw, hne⟩ := jdumpVal_head h (d+1)
    obtain ⟨tl, htl⟩ : ∃ tl,
        jdumpArrItems (.cons h t) (d+1) = jdumpVal h (d+1) ++ tl := by
      cases t with
      | nil => exact ⟨[], by rw [show jdumpArrItems (.cons h .nil) (d+1)
          = jdumpVal h (d+1) from rfl, List.append_nil]⟩
      | cons h₂ t₂ => exact ⟨_, rfl⟩
    have hskip : expectChar ']'
        (skipWs (nlIndent (d+1) ++ (jdumpArrItems (.cons h t) (d+1)
          ++ (nlIndent d ++ (']' :: rest))))) = none := by
      rw [skipWs_nlIndent, htl, hC]
      rw [List.append_assoc, List.cons_append]
      rw [skipWs_cons_not c₀ hw]
      exact expectChar_ne ']' c₀ _ hne
    rw [hskip]
    dsimp only
    rw [parseArrItems_ws]
    rw [parseArrItems_jdump (.cons h t) f (d+1) d rest (by omega) hnda
      (fun hh => JArr.noConfusion hh)]
  | .obj .nil => by
    intro fuel d rest hc _ _
    obtain ⟨f, rfl⟩ : ∃ f, fuel = f + 1 :=
      ⟨fuel - 1, by have h1 : costV (.obj .nil) = 1 := rfl; omega⟩
    rfl
  | .obj (.cons k v t) => by
    intro fuel d rest hc hnd hs
    have hc' : costO (.cons k v t) + 1 ≤ fuel := by
      have h1 : costV (.obj (.cons k v t)) = costO (.cons k v t) + 1 := rfl
      omega
    obtain ⟨f, rfl⟩ : ∃ f, fuel = f + 1 := ⟨fuel - 1, by omega⟩
    have hndo : noDupO (.cons k v t) = true := by
      have h1 : noDupV (.obj (.cons k v t)) = noDupO (.cons k v t) := rfl
      rw [h1] at hnd
      exact hnd
    have hobj : ∀ x : List Char, parseVal (f+1) ('{' :: x) =
        (match expectChar '}' (skipWs x) with
         | some r => some (.obj .nil, r)
         | none =>
           match parseObjItems f .nil x with
           | some (o, r) => some (.obj o, r)
           | none => none) := fun x => rfl
    rw [show jdumpVal (.obj (.cons k v t)) d =
        '{' :: (nlIndent (d+1) ++ jdumpObjItems (.cons k v t) (d+1) ++ nlIndent d ++ ['}'])
        from rfl]
    rw [List.cons_append, hobj]
    rw [show (nlIndent (d+1) ++ jdumpObjItems (.cons k v t) (d+1) ++ nlIndent d ++ ['}'])
          ++ rest
        = nlIndent (d+1) ++ (jdumpObjItems (.cons k v t) (d+1)
          ++ (nlIndent d ++ ('}' :: rest)))
        from by simp [List.append_assoc]]
    obtain ⟨tl, htl⟩ : ∃ tl, jdumpObjItems (.cons k v t) (d+1) = '"' :: tl := by
      cases t with
      | nil => exact ⟨_, rfl⟩
      | cons k₂ v₂ t₂ => exact ⟨_, rfl⟩
    have hskip : expectChar '}'
        (skipWs (nlIndent (d+1) ++ (jdumpObjItems (.cons k v t) (d+1)
          ++ (nlIndent d ++ ('}' :: rest))))) = none := by
      rw [skipWs_nlIndent, htl, List.cons_append]
      rw [skipWs_cons_not '"' (by decide)]
      exact expectChar_ne '}' '"' _ (by decide)
    rw [hskip]
    dsimp only
    rw [parseObjItems_ws]
    rw [parseObjItems_jdump (.cons k v t) f (d+1) d rest .nil (by omega) hndo
      (fun hh => JObj.noConfusion hh)]
    rw [setAll_nil_of_noDup (.cons k v t) hndo]

theorem parseArrItems_jdump : ∀ (a : JArr) (fuel k j : Nat) (rest : List Char),
    costA a ≤ fuel → noDupA a = true → a ≠ .nil →
    parseArrItems fuel (jdumpArrItems a k ++ (nlIndent j ++ (']' :: rest)))
      = some (a, rest)
  | .nil => by
    intro fuel k j rest _ _ hne
    exact absurd rfl hne
  | .cons h .nil => by
    intro fuel k j rest hc hnd _
    have hc' : costV h + 1 ≤ fuel := by
      have h1 : costA (.cons h .nil) = costV h + 0 + 1 := rfl
      omega
    obtain ⟨f, rfl⟩ : ∃ f, fuel = f + 1 := ⟨fuel - 1, by omega⟩
    have hndh : noDupV h = true := by
      have h1 : noDupA (.cons h .nil) = (noDupV h && noDupA .nil) := rfl
      rw [h1, Bool.and_eq_true] at hnd
      exact hnd.1
    rw [show jdumpArrItems (.cons h .nil) k = jdumpVal h k from rfl]
    simp only [parseArrItems]
    rw [parseVal_jdump h f k (nlIndent j ++ (']' :: rest)) (by omega) hndh
      (numSafe_nlIndent j _)]
    dsimp only
    rw [skipWs_nlIndent, skipWs_cons_not ']' (by decide)]
    rw [expectChar_ne ',' ']' rest (by decide)]
    dsimp only
    rw [expectChar_eq ']' rest]
  | .cons h (.cons h₂ t) => by
    intro fuel k j rest hc hnd _
    have hc' : costV h + costA (.cons h₂ t) + 1 ≤ fuel := by
      have h1 : costA (.cons h (.cons h₂ t)) = costV h + costA (.cons h₂ t) + 1 := rfl
      omega
    obtain ⟨f, rfl⟩ : ∃ f, fuel = f + 1 := ⟨fuel - 1, by omega⟩
    have hnds : noDupV h = true ∧ noDupA (.cons h₂ t) = true := by
      have h1 : noDupA (.cons h (.cons h₂ t)) = (noDupV h && noDupA (.cons h₂ t)) := rfl
      rw [h1] at hnd
      simpa using hnd
    rw [show jdumpArrItems (.cons h (.cons h₂ t)) k
        = jdumpVal h k ++ ',' :: (nlIndent k ++ jdumpArrItems (.cons h₂ t) k) from rfl]
    rw [show (jdumpVal h k ++ ',' :: (nlIndent k ++ jdumpArrItems (.cons h₂ t) k))
          ++ (nlIndent j ++ (']' :: rest))
        = jdumpVal h k ++ (',' :: (nlIndent k
          ++ (jdumpArrItems (.cons h₂ t) k ++ (nlIndent j ++ (']' :: rest)))))
        from by simp [List.append_assoc]]
    simp only [parseArrItems]
    rw [parseVal_jdump h f k _ (by omega) hnds.1 (numSafe_comma _)]
    dsimp only
    rw [skipWs_cons_not ',' (by decide), expectChar_eq ',' _]
    dsimp only
    rw [parseArrItems_ws]
    rw [parseArrItems_jdump (.cons h₂ t) f k j rest (by omega) hnds.2
      (fun hh => JArr.noConfusion hh)]

theorem parseObjItems_jdump : ∀ (o : JObj) (fuel k j : Nat) (rest : List Char) (acc : JObj),
    costO o ≤ fuel → noDupO o = true → o ≠ .nil →
    parseObjItems fuel acc (jdumpObjItems o k ++ (nlIndent j ++ ('}' :: rest)))
      = some (setAll acc o, rest)
  | .nil => by
    intro fuel k j rest acc _ _ hne
    exact absurd rfl hne
  | .cons k' v .nil => by
    intro fuel k j rest acc hc hnd _
    have hc' : costV v + 1 ≤ fuel := by
      have h1 : costO (.cons k' v .nil) = costV v + 0 + 1 := rfl
      omega
    obtain ⟨f, rfl⟩ : ∃ f, fuel = f + 1 := ⟨fuel - 1, by omega⟩
    have hndv : noDupV v = true := by
      have h1 : noDupO (.cons k' v .nil)
          = (!JObj.containsKey .nil k' && noDupV v && noDupO .nil) := rfl
      rw [h1] at hnd
      simp only [Bool.and_eq_true] at hnd
      exact hnd.1.2
    rw [show jdumpObjItems (.cons k' v .nil) k
        = quoteStr k' ++ ':' :: ' ' :: jdumpVal v k from rfl]
    rw [quoteStr]
    rw [show (('"' :: (escapeList k' ++ ['"'])) ++ ':' :: ' ' :: jdumpVal v k)
          ++ (nlIndent j ++ ('}' :: rest))
        = '"' :: (escapeList k' ++ ('"' :: (':' :: ' '
          :: (jdumpVal v k ++ (nlIndent j ++ ('}' :: rest))))))
        from by simp [List.append_assoc]]
    simp only [parseObjItems]
    rw [skipWs_cons_not '"' (by decide), expectChar_eq '"' _]
    dsimp only
    rw [parseStr_escapeList]
    dsimp only
    rw [skipWs_cons_not ':' (by decide), expectChar_eq ':' _]
    dsimp only
    rw [parseVal_congr f (' ' :: (jdumpVal v k ++ (nlIndent j ++ ('}' :: rest))))
      (jdumpVal v k ++ (nlIndent j ++ ('}' :: rest))) (skipWs_cons_ws ' ' (by decide) _)]
    rw [parseVal_jdump v f k _ (by omega) hndv (numSafe_nlIndent j _)]
    dsimp only
    rw [skipWs_nlIndent, skipWs_cons_not '}' (by decide)]
    rw [expectChar_ne ',' '}' rest (by decide)]
    dsimp only
    rw [expectChar_eq '}' rest]
    rfl
  | .cons k' v (.cons k₂ v₂ t) => by
    intro fuel k j rest acc hc hnd _
    have hc' : costV v + costO (.cons k₂ v₂ t) + 1 ≤ fuel := by
      have h1 : costO (.cons k' v (.cons k₂ v₂ t))
          = costV v + costO (.cons k₂ v₂ t) + 1 := rfl
      omega
    obtain ⟨f, rfl⟩ : ∃ f, fuel = f + 1 := ⟨fuel - 1, by omega⟩
    have hnds : noDupV v = true ∧ noDupO (.cons k₂ v₂ t) = true := by
      have h1 : noDupO (.cons k' v (.cons k₂ v₂ t))
          = (!(JObj.containsKey (.cons k₂ v₂ t) k') && noDupV v
            && noDupO (.cons k₂ v₂ t)) := rfl
      rw [h1] at hnd
      simp only [Bool.and_eq_true] at hnd
      exact ⟨hnd.1.2, hnd.2⟩
    rw [show jdumpObjItems (.cons k' v (.cons k₂ v₂ t)) k
        = quoteStr k' ++ ':' :: ' ' :: jdumpVal v k
          ++ ',' :: (nlIndent k ++ jdumpObjItems (.cons k₂ v₂ t) k) from rfl]
    rw [quoteStr]
    rw [show (('"' :: (escapeList k' ++ ['"'])) ++ ':' :: ' ' :: jdumpVal v k
          ++ ',' :: (nlIndent k ++ jdumpObjItems (.cons k₂ v₂ t) k))
          ++ (nlIndent j ++ ('}' :: rest))
        = '"' :: (escapeList k' ++ ('"' :: (':' :: ' '
          :: (jdumpVal v k ++ (',' :: (nlIndent k
            ++ (jdumpObjItems (.cons k₂ v₂ t) k ++ (nlIndent j ++ ('}' :: rest)))))))))
        from by simp [List.append_assoc]]
    simp only [parseObjItems]
    rw [skipWs_cons_not '"' (by decide), expectChar_eq '"' _]
    dsimp only
    rw [parseStr_escapeList]
    dsimp only
    rw [skipWs_cons_not ':' (by decide), expectChar_eq ':' _]
    dsimp only
    rw [parseVal_congr f (' ' :: (jdumpVal v k ++ (',' :: (nlIndent k
        ++ (jdumpObjItems (.cons k₂ v₂ t) k ++ (nlIndent j ++ ('}' :: rest)))))))
      (jdumpVal v k ++ (',' :: (nlIndent k
        ++ (jdumpObjItems (.cons k₂ v₂ t) k ++ (nlIndent j ++ ('}' :: rest))))))
      (skipWs_cons_ws ' ' (by decide) _)]
    rw [parseVal_jdump v f k _ (by omega) hnds.1 (numSafe_comma _)]
    dsimp only
    rw [skipWs_cons_not ',' (by decide), expectChar_eq ',' _]
    dsimp only
    rw [parseObjItems_ws]
    rw [parseObjItems_jdump (.cons k₂ v₂ t) f k j rest (acc.set k' v) (by omega) hnds.2
      (fun hh => JObj.noConfusion hh)]
    rfl
end

/-! ### Fuel bound: the parser cost never exceeds the serialized length -/

theorem nlIndent_length (d : Nat) : (nlIndent d).length = 4 * d + 1 := by
  simp [nlIndent]

mutual
theorem costV_le : ∀ (v : Json) (d : Nat), costV v ≤ (jdumpVal v d).length
  | .null, d => by
    have h1 : costV .null = 1 := rfl
    have h2 : (jdumpVal .null d).length = 4 := rfl
    omega
  | .bool true, d => by
    have h1 : costV (.bool true) = 1 := rfl
    have h2 : (jdumpVal (.bool true) d).length = 4 := rfl
    omega
  | .bool false, d => by
    have h1 : costV (.bool false) = 1 := rfl
    have h2 : (jdumpVal (.bool false) d).length = 5 := rfl
    omega
  | .int n, d => by
    have h1 : costV (.int n) = 1 := rfl
    have h2 : 1 ≤ (intChars n).length := by
      unfold intChars
      by_cases hn : n < 0
      · rw [if_pos hn]
        simp
      · rw [if_neg hn]
        obtain ⟨c, cs, hc, _⟩ := natChars_cons n.toNat
        rw [hc]
        simp
    have h3 : jdumpVal (.int n) d = intChars n := rfl
    rw [h3, h1]
    exact h2
  | .str s, d => by
    have h1 : costV (.str s) = 1 := rfl
    have h2 : jdumpVal (.str s) d = quoteStr s := rfl
    rw [h1, h2, quoteStr]
    simp
  | .arr .nil, d => by
    have h1 : costV (.arr .nil) = 1 := rfl
    have h2 : (jdumpVal (.arr .nil) d).length = 2 := rfl
    omega
  | .arr (.cons h t), d => by
    have h1 : costV (.arr (.cons h t)) = costA (.cons h t) + 1 := rfl
    have h2 : jdumpVal (.arr (.cons h t)) d
        = '[' :: (nlIndent (d+1) ++ jdumpArrItems (.cons h t) (d+1)
          ++ nlIndent d ++ [']']) := rfl
    have h3 := costA_le (.cons h t) (d+1)
    rw [h1, h2]
    simp only [List.length_cons, List.length_append, nlIndent_length,
      List.length_singleton]
    omega
  | .obj .nil, d => by
    have h1 : costV (.obj .nil) = 1 := rfl
    have h2 : (jdumpVal (.obj .nil) d).length = 2 := rfl
    omega
  | .obj (.cons k v t), d => by
    have h1 : costV (.obj (.cons k v t)) = costO (.cons k v t) + 1 := rfl
    have h2 : jdumpVal (.obj (.cons k v t)) d
        = '{' :: (nlIndent (d+1) ++ jdumpObjItems (.cons k v t) (d+1)
          ++ nlIndent d ++ ['}']) := rfl
    have h3 := costO_le (.cons k v t) (d+1)
    rw [h1, h2]
    simp only [List.length_cons, List.length_append, nlIndent_length,
      List.length_singleton]
    omega

theorem costA_le : ∀ (a : JArr) (d : Nat), costA a ≤ (jdumpArrItems a d).length + 1
  | .nil, d => by
    have h1 : costA .nil = 0 := rfl
    omega
  | .cons h .nil, d => by
    have h1 : costA (.cons h .nil) = costV h + 0 + 1 := rfl
    have h2 : jdumpArrItems (.cons h .nil) d = jdumpVal h d := rfl
    have h3 := costV_le h d
    rw [h1, h2]
    omega
  | .cons h (.cons h₂ t), d => by
    have h1 : costA (.cons h (.cons h₂ t)) = costV h + costA (.cons h₂ t) + 1 := rfl
    have h2 : jdumpArrItems (.cons h (.cons h₂ t)) d
        = jdumpVal h d ++ ',' :: (nlIndent d ++ jdumpArrItems (.cons h₂ t) d) := rfl
    have h3 := costV_le h d
    have h4 := costA_le (.cons h₂ t) d
    rw [h1, h2]
    simp only [List.length_append, List.length_cons, nlIndent_length]
    omega

theorem costO_le : ∀ (o : JObj) (d : Nat), costO o ≤ (jdumpObjItems o d).length + 1
  | .nil, d => by
    have h1 : costO .nil = 0 := rfl
    omega
  | .cons k v .nil, d => by
    have h1 : costO (.cons k v .nil) = costV v + 0 + 1 := rfl
    have h2 : jdumpObjItems (.cons k v .nil) d
        = quoteStr k ++ ':' :: ' ' :: jdumpVal v d := rfl
    have h3 := costV_le v d
    rw [h1, h2]
    simp only [List.length_append, List.length_cons]
    omega
  | .cons k v (.cons k₂ v₂ t), d => by
    have h1 : costO (.cons k v (.cons k₂ v₂ t))
        = costV v + costO (.cons k₂ v₂ t) + 1 := rfl
    have h2 : jdumpObjItems (.cons k v (.cons k₂ v₂ t)) d
        = quoteStr k ++ ':' :: ' ' :: jdumpVal v d
          ++ ',' :: (nlIndent d ++ jdumpObjItems (.cons k₂ v₂ t) d) := rfl
    have h3 := costV_le v d
    have h4 := costO_le (.cons k₂ v₂ t) d
    rw [h1, h2]
    simp only [List.length_append, List.length_cons, nlIndent_length]
    omega
end

theorem json_load_dump (v : Json) (h : noDupV v = true) :
    json_load (json_dump v) = some v := by
  unfold json_load json_dump
  have hb : costV v ≤ (jdumpVal v 0).length + 1 := le_trans (costV_le v 0) (by omega)
  have hp := parseVal_jdump v ((jdumpVal v 0).length + 1) 0 [] hb h rfl
  rw [List.append_nil] at hp
  rw [hp]
  rfl

set_option maxRecDepth 100000 in
theorem noDupV_builtDoc_str (now : Int) (ss : Nat) (sh : List Char) (cs : Nat)
    (ch : List Char) (u : List Char) :
    noDupV (builtDoc now ss sh cs ch (.str u)) = true := rfl

set_option maxRecDepth 100000 in
theorem noDupV_builtDoc_null (now : Int) (ss : Nat) (sh : List Char) (cs : Nat)
    (ch : List Char) :
    noDupV (builtDoc now ss sh cs ch .null) = true := rfl

/-- C7: every document `generate_update_db` produces (string keys with
integer, string, boolean, list and nested-dict values) survives the
round trip: serializing it with `json.dump` and parsing the text back
with `json.load` yields a structurally equal document. -/
theorem spec_C7_roundtrip (r : ReleaseResponse) (now : Int)
    (fetch : Option (List Char) → Nat × List (List Nat)) (d : Json)
    (h : generate_update_db r now fetch = some d) :
    json_load (json_dump d) = some d := by
  unfold generate_update_db at h
  cases hr : get_tag_and_latest_release_url r with
  | exit1 =>
    simp only [hr] at h
    exact Option.noConfusion h
  | found cu tag =>
    simp only [hr] at h
    cases hs : get_file_hash_and_size (fetch (some SCRIPT_RAW_URL)).1
        (fetch (some SCRIPT_RAW_URL)).2 with
    | none =>
      simp only [hs] at h
      exact Option.noConfusion h
    | some sres =>
      simp only [hs] at h
      cases hc : get_file_hash_and_size (fetch cu).1 (fetch cu).2 with
      | none =>
        simp only [hc] at h
        exact Option.noConfusion h
      | some cres =>
        simp only [hc, Option.some.injEq] at h
        subst h
        cases cu with
        | some u =>
          exact json_load_dump
            (builtDoc now sres.1 sres.2 cres.1 cres.2 (.str u))
            (noDupV_builtDoc_str now sres.1 sres.2 cres.1 cres.2 u)
        | none =>
          exact json_load_dump
            (builtDoc now sres.1 sres.2 cres.1 cres.2 .null)
            (noDupV_builtDoc_null now sres.1 sres.2 cres.1 cres.2)

set_option maxRecDepth 1000000 in
theorem spec_C7_roundtrip_witness :
    generate_update_db
        ⟨200, some "v1".data, [⟨some "client.tar.xz".data, some "u".data⟩]⟩
        5 (fun _ => (200, []))
      = some (builtDoc 5 0 (md5Hex []) 0 (md5Hex []) (.str "u".data))
    ∧ json_load (json_dump (builtDoc 5 0 (md5Hex []) 0 (md5Hex []) (.str "u".data)))
      = some (builtDoc 5 0 (md5Hex []) 0 (md5Hex []) (.str "u".data)) :=
  ⟨by decide,
   spec_C7_roundtrip
     ⟨200, some "v1".data, [⟨some "client.tar.xz".data, some "u".data⟩]⟩
     5 (fun _ => (200, []))
     (builtDoc 5 0 (md5Hex []) 0 (md5Hex []) (.str "u".data)) (by decide)⟩

theorem save_saved_file (d : Json) (file : Option (List Char))
    (hw : (save_update_db_to_file_if_changed d file).1 = SaveOutcome.saved) :
    (save_update_db_to_file_if_changed d file).2 = some (json_dump d) := by
  cases file with
  | none => rfl
  | some c =>
    unfold save_update_db_to_file_if_changed at hw ⊢
    cases hl : json_load c with
    | none =>
      simp only [hl] at hw
      exact SaveOutcome.noConfusion hw
    | some e =>
      simp only [hl] at hw ⊢
      by_cases hp : pyEqV e d = true
      · rw [if_pos hp] at hw
        exact SaveOutcome.noConfusion hw
      · rw [if_neg hp]

/-- C6: once `save_update_db_to_file_if_changed` has written the document
(with its fixed literal timestamp) to the file, running it a second time
with the same document against the resulting file state is a no-op: it
reports no changes, and the file content is unchanged. -/
theorem spec_C6_idempotent (d : Json) (file : Option (List Char))
    (hnd : noDupV d = true)
    (hw : (save_update_db_to_file_if_changed d file).1 = SaveOutcome.saved) :
    save_update_db_to_file_if_changed d (save_update_db_to_file_if_changed d file).2
      = (SaveOutcome.noChanges, (save_update_db_to_file_if_changed d file).2) := by
  rw [save_saved_file d file hw]
  unfold save_update_db_to_file_if_changed
  dsimp only
  rw [json_load_dump d hnd]
  simp only [pyEqV_refl, if_pos]

set_option maxRecDepth 100000 in
theorem spec_C6_idempotent_witness :
    noDupV get_update_db_schema = true
    ∧ (save_update_db_to_file_if_changed get_update_db_schema none).1 = SaveOutcome.saved
    ∧ save_update_db_to_file_if_changed get_update_db_schema
        (save_update_db_to_file_if_changed get_update_db_schema none).2
      = (SaveOutcome.noChanges,
         (save_update_db_to_file_if_changed get_update_db_schema none).2) :=
  ⟨by decide, rfl, spec_C6_idempotent get_update_db_schema none (by decide) rfl⟩
